import Mathlib

/-!
Verification development for the supplier synchronization and bulk-import
engine of the sheaker2.0 repository.

The definitions below are a shallow embedding, translated from the Python
source files:
  * src/catalog/importers/manual.py   (manual bulk importer)
  * src/catalog/models.py             (catalog data model)
  * src/providers/models.py           (provider data model)
  * src/providers/services/sync.py    (sync orchestrator)
  * src/providers/adapters/cj.py      (CJ adapter: tokens, HTTP, mapping)

Machine-level conventions of the embedding:
  * JSON values carried in uploaded rows are modelled by `JVal`, a two-level
    JSON type (scalars, arrays of scalars, objects of scalars).  The source
    only ever inspects row values one level deep (truthiness, str(),
    isinstance list/dict), so deeper nesting is not needed by any claim.
  * Python truthiness, str() and numeric conversions are modelled by
    `pyTruthy`, `pyStr`, `pyDecimal` and `pyInt`.  `str()` of a float is
    rendered in fraction notation when the value is not integral; only
    non-emptiness and re-parseability of these strings matter anywhere.
  * Timestamps are integers (seconds).  Database rows live in plain lists;
    primary keys are drawn from a `nextId` counter.
-/

namespace Sheaker

/-- A JSON scalar as it appears inside an uploaded row. -/
inductive JScalar where
  | null
  | str (s : String)
  | num (q : Rat)
  | bool (b : Bool)
deriving DecidableEq, Repr, Inhabited

/-- A JSON value one level deep: scalar, array of scalars, or object of
scalars.  This is the value type of uploaded row cells. -/
inductive JVal where
  | scalar (v : JScalar)
  | arr (xs : List JScalar)
  | obj (fields : List (String × JScalar))
deriving DecidableEq, Repr, Inhabited

namespace JVal

/-- Shorthand for a JSON string value. -/
def s (x : String) : JVal := .scalar (.str x)

/-- Shorthand for a JSON number value. -/
def n (q : Rat) : JVal := .scalar (.num q)

/-- Shorthand for JSON null. -/
def nil : JVal := .scalar .null

end JVal

/-- Python truthiness of a JSON scalar. -/
def truthyScalar : JScalar → Bool
  | .null => false
  | .str s => s ≠ ""
  | .num q => q ≠ 0
  | .bool b => b

/-- Python truthiness of a JSON value (empty list and empty dict are falsy). -/
def pyTruthy : JVal → Bool
  | .scalar v => truthyScalar v
  | .arr xs => xs ≠ []
  | .obj fs => fs ≠ []

/-- Rendering of a number under Python str(); integral values print as
integers.  Non-integral values print in fraction notation, a deliberate
divergence from CPython float formatting: every use in the source only
needs the result to be non-empty and to re-parse to the same number. -/
def numStr (q : Rat) : String :=
  if q.den = 1 then toString q.num else toString q.num ++ "/" ++ toString q.den

/-- Python str() of a JSON scalar: None prints as the word None, booleans
capitalized. -/
def pyStrScalar : JScalar → String
  | .null => "None"
  | .str s => s
  | .num q => numStr q
  | .bool b => if b then "True" else "False"

/-- Python str() of a JSON value.  Arrays and objects render as a non-empty
placeholder; the source never parses these renderings. -/
def pyStr : JVal → String
  | .scalar v => pyStrScalar v
  | .arr _ => "[list]"
  | .obj _ => "[dict]"

/-- Python `a or b`: left operand when truthy, else right operand. -/
def jor (a b : JVal) : JVal := if pyTruthy a then a else b

/-- Lookup in a JSON object / row dictionary (dict.get, absent key maps to
None). -/
def dget (fields : List (String × JVal)) (k : String) : JVal :=
  match fields.find? (fun f => f.1 = k) with
  | some f => f.2
  | none => JVal.nil

/-- Membership test for a key of a row dictionary (Python `k in raw`). -/
def dhas (fields : List (String × JVal)) (k : String) : Bool :=
  (fields.find? (fun f => f.1 = k)).isSome

/-- Python strip(): drop leading and trailing whitespace.  (Implemented on
the character list so that kernel reduction works; String.trim is defined
by well-founded recursion.) -/
def pyStrip (s : String) : String :=
  String.mk (((s.toList.dropWhile Char.isWhitespace).reverse.dropWhile
    Char.isWhitespace).reverse)

/-- Python upper() (character-wise, list-based for kernel reduction). -/
def pyUpper (s : String) : String :=
  String.mk (s.toList.map Char.toUpper)

/-- Python lower() (character-wise, list-based for kernel reduction). -/
def pyLower (s : String) : String :=
  String.mk (s.toList.map Char.toLower)

/-- Python slicing s[:n] by code points (list-based for kernel
reduction). -/
def strTake (s : String) (n : Nat) : String :=
  String.mk (s.toList.take n)

/-- Fold a list of decimal digits into a natural number. -/
def digitsToNat (cs : List Char) : Nat :=
  cs.foldl (fun acc c => acc * 10 + (c.toNat - 48)) 0

/-- Parse a decimal numeral string the way Decimal(str) accepts it:
optional surrounding whitespace, optional sign, digits with at most one
decimal point, at least one digit overall.  Exponent and special forms
accepted by CPython Decimal (such as 1e3) are not modelled; no claim
exercises them. -/
def parseDecimalString (s : String) : Option Rat :=
  let t := (((s.toList.dropWhile Char.isWhitespace).reverse.dropWhile Char.isWhitespace).reverse)
  let (sign, rest) :=
    match t with
    | '-' :: r => ((-1 : Int), r)
    | '+' :: r => ((1 : Int), r)
    | r => ((1 : Int), r)
  let intPart := rest.takeWhile Char.isDigit
  let tail := rest.dropWhile Char.isDigit
  match tail with
  | [] =>
      if intPart = [] then none
      else some ((sign * (digitsToNat intPart : Int) : Int) : Rat)
  | '.' :: fracRaw =>
      let fracPart := fracRaw.takeWhile Char.isDigit
      if fracRaw.dropWhile Char.isDigit ≠ [] then none
      else if intPart = [] ∧ fracPart = [] then none
      else
        let base : Int := (digitsToNat intPart : Int) * (10 ^ fracPart.length : Nat)
        let whole : Int := sign * (base + (digitsToNat fracPart : Int))
        some ((whole : Rat) / ((10 ^ fracPart.length : Nat) : Rat))
  | _ => none

/-- Parse an integer string the way Python int(str) accepts it: optional
surrounding whitespace, optional sign, decimal digits only. -/
def parseIntString (s : String) : Option Int :=
  let t := (((s.toList.dropWhile Char.isWhitespace).reverse.dropWhile Char.isWhitespace).reverse)
  let (sign, rest) :=
    match t with
    | '-' :: r => ((-1 : Int), r)
    | '+' :: r => ((1 : Int), r)
    | r => ((1 : Int), r)
  if rest ≠ [] ∧ rest.all Char.isDigit then some (sign * (digitsToNat rest : Int))
  else none

/-- Model of Decimal(str(x)) for a row cell: numbers round-trip, numeric
strings parse, everything else (None, booleans, lists, dicts) raises. -/
def pyDecimal : JVal → Option Rat
  | .scalar (.num q) => some q
  | .scalar (.str s) => parseDecimalString s
  | _ => none

/-- Model of int(x) for a row cell: floats truncate toward zero, numeric
strings parse, booleans coerce, everything else raises. -/
def pyInt : JVal → Option Int
  | .scalar (.num q) => some (q.num.tdiv (q.den : Int))
  | .scalar (.str s) => parseIntString s
  | .scalar (.bool b) => some (if b then 1 else 0)
  | _ => none

/-- Python `x not in (None, "")`: the cell is neither None nor the empty
string. -/
def jPresent (v : JVal) : Bool :=
  v ≠ JVal.nil ∧ v ≠ JVal.s ""

/-! ## Catalog and provider data model

Translated from src/catalog/models.py and src/providers/models.py.  Only
the columns read or written by the importer and the sync orchestrator are
carried; auto-managed timestamps, slugs and display metadata are not
consulted by any claim.  Rows live in lists; `DB.nextId` supplies fresh
primary keys. -/

/-- catalog.Category row (name is unique). -/
structure CategoryR where
  id : Nat
  name : String
deriving DecidableEq, Repr

/-- catalog.Subcategory row ((category, name) is unique). -/
structure SubcategoryR where
  id : Nat
  categoryId : Nat
  name : String
deriving DecidableEq, Repr

/-- catalog.Product row.  brand is an Option so the sync path can store the
None that the CJ mapper produces. -/
structure ProductR where
  id : Nat
  title : String
  description : String
  brand : Option String
  category : Option Nat
  subcategory : Option Nat
  is_active : Bool
deriving DecidableEq, Repr

/-- catalog.Variant row (sku is globally unique). -/
structure VariantR where
  id : Nat
  productId : Nat
  sku : String
  attributes : List (String × JScalar)
  price_base : Rat
  currency : String
  weight : Option Rat
  dims : List (String × JScalar)
  is_active : Bool
deriving DecidableEq, Repr

/-- catalog.Inventory row (one-to-one with Variant; quantities are
PositiveIntegerFields, hence Nat). -/
structure InventoryR where
  variantId : Nat
  qty_available : Nat
  safety_stock : Nat
  warehouse : Option String
deriving DecidableEq, Repr

/-- catalog.Media row.  kind is one of image / video / external. -/
structure MediaR where
  id : Nat
  productId : Option Nat
  variantId : Option Nat
  kind : String
  url : String
  alt : String
  is_main : Bool
  position : Nat
deriving DecidableEq, Repr

/-- providers.SupplierProduct row ((provider_account, external_id) is
unique).  The Django model in src/providers/models.py does NOT declare a
raw_hash column — see `supplierProductFieldNames`, the translation of that
model's field list.  The record field below exists only so that the read
of sp.raw_hash guarded by _has_field in sync.py line 264 can be expressed;
because _has_field consults `supplierProductFieldNames` the guard is
always false in this schema and the read is dead code. -/
structure SupplierProductR where
  accountId : Nat
  variantId : Nat
  external_id : String
  raw : String
  is_active : Bool
  last_synced_at : Int
  raw_hash : String
deriving DecidableEq, Repr

/-- Field names of the SupplierProduct Django model, from
src/providers/models.py lines 27-58 (concrete columns plus the implicit
primary key).  This is what `_has_field(SupplierProduct, name)` inspects. -/
def supplierProductFieldNames : List String :=
  ["id", "provider_account", "variant", "external_id", "raw", "is_active",
   "last_synced_at"]

/-- Translation of `_has_field(SupplierProduct, name)` from sync.py. -/
def supplierProductHasField (name : String) : Bool :=
  supplierProductFieldNames.contains name

/-- The whole relational store visible to the importer and the sync
orchestrator. -/
structure DB where
  nextId : Nat
  categories : List CategoryR
  subcategories : List SubcategoryR
  products : List ProductR
  variants : List VariantR
  inventories : List InventoryR
  media : List MediaR
  links : List SupplierProductR
deriving DecidableEq, Repr

/-- The empty store. -/
def DB.empty : DB :=
  { nextId := 1, categories := [], subcategories := [], products := [],
    variants := [], inventories := [], media := [], links := [] }

/-- Replace the product row carrying the given id (model of Product.save on
an existing instance). -/
def DB.saveProduct (db : DB) (p : ProductR) : DB :=
  { db with products := db.products.map (fun q => if q.id = p.id then p else q) }

/-- Replace the variant row carrying the given id (model of Variant.save on
an existing instance). -/
def DB.saveVariant (db : DB) (v : VariantR) : DB :=
  { db with variants := db.variants.map (fun w => if w.id = v.id then v else w) }

/-- Replace or insert the inventory row of a variant (model of
Inventory.save after get_or_create). -/
def DB.saveInventory (db : DB) (inv : InventoryR) : DB :=
  if db.inventories.any (fun i => i.variantId = inv.variantId) then
    { db with inventories :=
        db.inventories.map (fun i => if i.variantId = inv.variantId then inv else i) }
  else
    { db with inventories := db.inventories ++ [inv] }

/-! ## Manual bulk importer: normalization, validation, classification

Translated from src/catalog/importers/manual.py. -/

/-- VALID_CURRENCIES, derived from CURRENCY_CHOICES in catalog/models.py. -/
def VALID_CURRENCIES : List String := ["USD", "EUR", "GBP", "NGN"]

/-- NORMALIZED_FIELDS: normalized keys accepted by the column-mapping UI. -/
def NORMALIZED_FIELDS : List String :=
  ["title", "description", "brand", "category_name", "subcategory_name",
   "sku", "price", "currency", "weight", "dims", "media_urls",
   "qty_available", "safety_stock", "warehouse", "stock_mode",
   "product_key", "product_productSku", "attributes", "vid", "variant_key"]

/-- An uploaded row before normalization: a dictionary of cells. -/
abbrev RawRow : Type := List (String × JVal)

/-- Translation of `_apply_mapping`: route supplier headers to normalized
keys, then keep unmapped keys that already match normalized names. -/
def applyMapping (raw : RawRow) (mapping : List (String × String)) : RawRow :=
  let mappedPart : RawRow :=
    mapping.foldl
      (fun out kv =>
        if kv.2 ≠ "" then out ++ [(kv.1, dget raw kv.2)] else out) []
  NORMALIZED_FIELDS.foldl
    (fun out k =>
      if (out.find? (fun f => f.1 = k)).isNone ∧ dhas raw k then
        out ++ [(k, dget raw k)]
      else out)
    mappedPart

/-- The normalized row schema produced by `_normalize_row`. -/
structure NRow where
  title : String
  description : String
  brand : String
  category_name : String
  subcategory_name : String
  sku : String
  price : JVal
  currency : String
  weight : JVal
  dims : List (String × JScalar)
  media_urls : List JScalar
  qty_available : JVal
  safety_stock : JVal
  warehouse : JVal
  stock_mode : String
  product_key : String
  product_productSku : String
  attributes : List (String × JScalar)
  vid : JVal
  variant_key : JVal
deriving DecidableEq, Repr

/-- `raw.get(k) or raw.get(k2) or ""`, then str() and strip(). -/
def strField2 (raw : RawRow) (k k2 : String) : String :=
  pyStrip (pyStr (jor (jor (dget raw k) (dget raw k2)) (JVal.s "")))

/-- `raw.get(k) or ""`, then str() and strip(). -/
def strField (raw : RawRow) (k : String) : String :=
  pyStrip (pyStr (jor (dget raw k) (JVal.s "")))

/-- Coerce a cell to a dict, as the `or {}` plus isinstance-dict guards do:
anything that is not a (non-empty or empty) object collapses to the empty
dict. -/
def toDict : JVal → List (String × JScalar)
  | .obj fs => fs
  | _ => []

/-- The or-chains feeding `.strip()` for the taxonomy names resolve to
strings.  Unlike title / sku / brand / product keys, the source applies no
str() to `raw.get("category_name") or raw.get("category") or ""` (and the
subcategory pair), so a truthy non-string cell there raises AttributeError
inside `_normalize_row` and the upload never reaches the pipeline. -/
def taxonomyCellsStr (raw : RawRow) : Bool :=
  (match jor (jor (dget raw "category_name") (dget raw "category"))
      (JVal.s "") with
   | .scalar (.str _) => true
   | _ => false) &&
  (match jor (jor (dget raw "subcategory_name") (dget raw "subcategory"))
      (JVal.s "") with
   | .scalar (.str _) => true
   | _ => false)

/-- Translation of `_normalize_row`.  Two cells are stripped by the source
WITHOUT a str() coercion, so a truthy non-string there raises
AttributeError in CPython while this embedding renders it with str():
the taxonomy names (theorems quantifying over raw rows therefore carry
the `taxonomyCellsStr` guard) and stock_mode (harmless under validation:
str() of a truthy non-string is never the empty string, "set" or
"increment", so such a row always fails the stock_mode check). -/
def normalizeRow (raw : RawRow) : NRow :=
  { title := strField2 raw "title" "name"
    description := strField2 raw "description" "desc"
    brand := strField raw "brand"
    category_name := strField2 raw "category_name" "category"
    subcategory_name := strField2 raw "subcategory_name" "subcategory"
    sku := strField2 raw "sku" "SKU"
    price := jor (jor (dget raw "price") (dget raw "price_base")) (dget raw "amount")
    currency := pyUpper (pyStr (jor (dget raw "currency") (JVal.s "USD")))
    weight := dget raw "weight"
    dims := toDict (dget raw "dims")
    media_urls :=
      (match jor (dget raw "media_urls") (dget raw "images") with
       | .arr xs => xs
       | _ => [])
    qty_available := dget raw "qty_available"
    safety_stock := dget raw "safety_stock"
    warehouse := dget raw "warehouse"
    stock_mode := pyLower (pyStr (jor (dget raw "stock_mode") (JVal.s "set")))
    product_key := strField raw "product_key"
    product_productSku := strField raw "product_productSku"
    attributes := toDict (dget raw "attributes")
    vid := dget raw "vid"
    variant_key := dget raw "variant_key" }

/-- Translation of `_validate_row`.  The dims and attributes
isinstance-dict checks of the source are structurally unfailable here
because `_normalize_row` has already coerced both fields to dicts, exactly
as in the source, so they contribute no error.  Error message texts are
abbreviated (punctuation only); every claim inspects emptiness or count of
this list, never the texts. -/
def validateRow (nr : NRow) : List String :=
  let requiredErrs :=
    (if pyStrip nr.title = "" then ["Missing required field: title"] else []) ++
    (if pyStrip nr.sku = "" then ["Missing required field: sku"] else []) ++
    (if pyStrip (pyStr nr.price) = "" then ["Missing required field: price"] else [])
  let priceErrs :=
    if (pyDecimal nr.price).isNone then ["price must be a valid number (Decimal)."]
    else []
  let currErrs :=
    let curr := pyUpper nr.currency
    if curr ≠ "" ∧ ¬ VALID_CURRENCIES.contains curr then
      ["currency must be one of the allowed currencies"]
    else []
  let qtyErrs :=
    if jPresent nr.qty_available ∧ (pyInt nr.qty_available).isNone then
      ["qty_available must be integer."]
    else []
  let safetyErrs :=
    if jPresent nr.safety_stock ∧ (pyInt nr.safety_stock).isNone then
      ["safety_stock must be integer."]
    else []
  let modeErrs :=
    if nr.stock_mode ≠ "" ∧ nr.stock_mode ≠ "set" ∧ nr.stock_mode ≠ "increment" then
      ["stock_mode must be set or increment"]
    else []
  requiredErrs ++ priceErrs ++ currErrs ++ qtyErrs ++ safetyErrs ++ modeErrs

/-- Translation of `_classify_action`: the existence probe on Variant by
SKU, then the create / update / skip decision. -/
def classifyAction (db : DB) (nr : NRow) (upsert : Bool) : String :=
  let ex := db.variants.any (fun v => v.sku = nr.sku)
  if ex ∧ upsert then "update"
  else if ex ∧ ¬ upsert then "skip"
  else "create"

/-- One preview row: the normalized row plus its errors and action, as
built by `parse_file_to_preview`. -/
structure PRow where
  row : NRow
  errors : List String
  action : String
deriving DecidableEq, Repr

/-- Aggregate action counts of a preview. -/
structure PStats where
  total : Nat
  to_create : Nat
  to_update : Nat
  to_skip : Nat
  errors : Nat
deriving DecidableEq, Repr

/-- A preview result: the requested page of rows plus stats and echo
fields. -/
structure Preview where
  rows : List PRow
  stats : PStats
  upsert : Bool
  page : Nat
  per_page : Nat
  total_pages : Nat
deriving DecidableEq, Repr

/-- The action of one raw row in a preview over a fixed store: classify
when validation passes, error otherwise (the existence probe is not
reached for invalid rows). -/
def previewAction (db : DB) (nr : NRow) (upsert : Bool) : String :=
  if validateRow nr = [] then classifyAction db nr upsert else "error"

/-- The full (pre-pagination) preview row list of `parse_file_to_preview`. -/
def previewRowsFull (db : DB) (rowsRaw : List RawRow)
    (upsert : Bool) (mapping : List (String × String)) : List PRow :=
  rowsRaw.map (fun raw =>
    let raw := if mapping ≠ [] then applyMapping raw mapping else raw
    let nr := normalizeRow raw
    let errs := validateRow nr
    { row := nr, errors := errs,
      action := if errs = [] then classifyAction db nr upsert else "error" })

/-- Translation of `parse_file_to_preview` on already-loaded rows: build
the full classified list, tally stats, then return the requested page
slice (per_page hard-clamped into [50, 2000]). -/
def parseFileToPreview (db : DB) (rowsRaw : List RawRow) (upsert : Bool)
    (mapping : List (String × String)) (page per_page : Nat) : Preview :=
  let rowsFull := previewRowsFull db rowsRaw upsert mapping
  let stats : PStats :=
    { total := rowsFull.length
      to_create := (rowsFull.filter (fun r => r.action = "create")).length
      to_update := (rowsFull.filter (fun r => r.action = "update")).length
      to_skip := (rowsFull.filter (fun r => r.action = "skip")).length
      errors := (rowsFull.filter (fun r => r.action = "error")).length }
  let per_page := max 50 (min per_page 2000)
  let total_pages := max 1 ((stats.total + per_page - 1) / per_page)
  let page := max 1 (min page total_pages)
  let start := (page - 1) * per_page
  { rows := (rowsFull.drop start).take per_page
    stats := stats, upsert := upsert, page := page, per_page := per_page
    total_pages := total_pages }

/-! ## Manual bulk importer: upsert and commit -/

/-- Translation of `_get_or_create_category`: blank names yield no
category; get_or_create is by unique name (a duplicate pair in the store
would make the underlying get() raise MultipleObjectsReturned). -/
def getOrCreateCategory (db : DB) (name : String) :
    Except String (Option Nat × DB) :=
  if name = "" then .ok (none, db)
  else
    match db.categories.filter (fun c => c.name = name) with
    | [] =>
        let c : CategoryR := { id := db.nextId, name := name }
        .ok (some c.id,
          { db with nextId := db.nextId + 1, categories := db.categories ++ [c] })
    | [c] => .ok (some c.id, db)
    | _ => .error "Category.MultipleObjectsReturned"

/-- Translation of `_get_or_create_subcategory`: requires both a parent
category and a non-blank name; get_or_create is by (category, name). -/
def getOrCreateSubcategory (db : DB) (cat : Option Nat) (name : String) :
    Except String (Option Nat × DB) :=
  match cat with
  | none => .ok (none, db)
  | some catId =>
      if name = "" then .ok (none, db)
      else
        match db.subcategories.filter
            (fun s => s.categoryId = catId ∧ s.name = name) with
        | [] =>
            let s : SubcategoryR :=
              { id := db.nextId, categoryId := catId, name := name }
            .ok (some s.id,
              { db with nextId := db.nextId + 1,
                        subcategories := db.subcategories ++ [s] })
        | [s] => .ok (some s.id, db)
        | _ => .error "Subcategory.MultipleObjectsReturned"

/-- The product_key → Product cache threaded through one commit run. -/
abbrev PCache : Type := List (String × Nat)

/-- Return bundle of `_upsert_one`: (product_created, variant_created,
media_created, inventory_action). -/
structure UpOut where
  product_created : Bool
  variant_created : Bool
  media_created : Nat
  inventory_action : String
deriving DecidableEq, Repr

/-- The media-attachment loop at the end of `_upsert_one`: skip URLs whose
string form is already attached (a non-string cell never equals a stored
url string, mirroring Python equality), auto-marking the first created
item as main only when the variant had no media at all. -/
def mediaLoop (variantId productId : Nat) (alt : String)
    (existing : List String) : List JScalar → Nat → Bool → Nat → DB → DB × Nat
  | [], _, _, created, db => (db, created)
  | u :: rest, idx, hasMedia, created, db =>
      let inExisting :=
        match u with
        | .str s => existing.contains s
        | _ => false
      if inExisting then
        mediaLoop variantId productId alt existing rest (idx + 1) hasMedia created db
      else
        let isMain : Bool := ¬ hasMedia ∧ created = 0 ∧ idx = 0
        let m : MediaR :=
          { id := db.nextId, productId := some productId,
            variantId := some variantId, kind := "external",
            url := pyStrScalar u, alt := alt, is_main := isMain,
            position := if isMain then 0 else 1 }
        mediaLoop variantId productId alt existing rest (idx + 1) true
          (created + 1) { db with nextId := db.nextId + 1, media := db.media ++ [m] }

/-- The update-or-create branch of `_upsert_one`: when a Variant with the
row's SKU exists, update it and its Product in place; otherwise reuse the
run-cache's Product for the row's product_key or create one, then create
the Variant under it.  Returns the store, the cache, the touched variant
and the (product_created, variant_created) pair. -/
def upsertBranch (nr : NRow) (priceBase : Rat) (currency : String)
    (cat subcat : Option Nat) (cache : PCache) (db : DB) :
    Except String (DB × PCache × VariantR × Bool × Bool) :=
  match db.variants.find? (fun v => v.sku = nr.sku) with
  | some variant =>
      -- UPDATE path: update the product and the variant in place
      match db.products.find? (fun p => p.id = variant.productId) with
      | none => .error "Product.DoesNotExist"
      | some p =>
        let key := pyStrip nr.product_key
        let cache :=
          if key ≠ "" ∧ (cache.find? (fun e => e.1 = key)).isNone then
            cache ++ [(key, p.id)]
          else cache
        -- the normalized description is always a string, never None, so
        -- the `is not None` guard of the source always passes
        let p :=
          { p with
            title := if nr.title ≠ "" then nr.title else p.title
            description := nr.description
            brand := if nr.brand ≠ "" then some nr.brand else p.brand
            category := if cat.isSome then cat else p.category
            subcategory := if subcat.isSome then subcat else p.subcategory }
        let db := db.saveProduct p
        let variant :=
          { variant with
            price_base := priceBase
            currency := currency
            attributes := if nr.attributes ≠ [] then nr.attributes else variant.attributes
            weight :=
              if jPresent nr.weight then
                match pyDecimal nr.weight with
                | some w => some w
                | none => variant.weight   -- InvalidOperation is swallowed here
              else variant.weight
            dims := nr.dims
            is_active := true }
        let db := db.saveVariant variant
        .ok (db, cache, variant, false, false)
  | none =>
      -- CREATE path: reuse a cached product for the product_key, else
      -- create a product, then create the variant under it
      let key := pyStrip nr.product_key
      let (pid, productCreated, db, cache) :=
        match (if key ≠ "" then cache.find? (fun e => e.1 = key) else none) with
        | some e => (e.2, false, db, cache)
        | none =>
            let p : ProductR :=
              { id := db.nextId, title := nr.title,
                description := nr.description, brand := some nr.brand,
                category := cat, subcategory := subcat, is_active := true }
            let db2 := { db with nextId := db.nextId + 1,
                                 products := db.products ++ [p] }
            let cache2 := if key ≠ "" then cache ++ [(key, p.id)] else cache
            (p.id, true, db2, cache2)
      match (if jPresent nr.weight then
               match pyDecimal nr.weight with
               | some w => .ok (some w)
               | none => .error "InvalidOperation: weight"  -- create path does not catch
             else .ok none : Except String (Option Rat)) with
      | .error e => .error e
      | .ok weight =>
        let variant : VariantR :=
          { id := db.nextId, productId := pid, sku := nr.sku,
            attributes := nr.attributes, price_base := priceBase,
            currency := currency, weight := weight, dims := nr.dims,
            is_active := true }
        let db := { db with nextId := db.nextId + 1,
                            variants := db.variants ++ [variant] }
        .ok (db, cache, variant, productCreated, true)

/-- The inventory section of `_upsert_one` for the touched variant:
get_or_create the one-to-one Inventory row, apply the stock mode to the
quantity (floored at zero), the safety stock, and the warehouse label. -/
def inventoryStep (nr : NRow) (variantId : Nat) (db : DB) :
    Except String (DB × String) :=
  if jPresent nr.qty_available ∨ jPresent nr.safety_stock ∨ pyTruthy nr.warehouse then
    let inv :=
      match db.inventories.find? (fun i => i.variantId = variantId) with
      | some i => i
      | none => { variantId := variantId, qty_available := 0,
                  safety_stock := 0, warehouse := none }
    let qtyStep : Except String (InventoryR × String) :=
      if jPresent nr.qty_available then
        match pyInt nr.qty_available with
        | none => .error "ValueError: qty_available"
        | some qty =>
            if nr.stock_mode = "increment" then
              .ok ({ inv with
                     qty_available := ((inv.qty_available : Int) + qty).toNat },
                   "increment")
            else
              .ok ({ inv with qty_available := qty.toNat }, "set")
      else .ok (inv, "")
    match qtyStep with
    | .error e => .error e
    | .ok (inv, act) =>
      let safetyStep : Except String InventoryR :=
        if jPresent nr.safety_stock then
          match pyInt nr.safety_stock with
          | none => .error "ValueError: safety_stock"
          | some s => .ok { inv with safety_stock := s.toNat }
        else .ok inv
      match safetyStep with
      | .error e => .error e
      | .ok inv =>
        let inv :=
          if pyTruthy nr.warehouse then
            { inv with warehouse := some (pyStr nr.warehouse) }
          else inv
        .ok (db.saveInventory inv, act)
  else .ok (db, "")

/-- The media section of `_upsert_one` for the touched variant. -/
def mediaStep (nr : NRow) (variant : VariantR) (db : DB) : DB × Nat :=
  let urls := nr.media_urls.filter truthyScalar
  if urls ≠ [] then
    let existing :=
      (db.media.filter (fun m =>
        m.variantId = some variant.id ∧ m.kind = "external")).map (fun m => m.url)
    let hasMedia := db.media.any (fun m => m.variantId = some variant.id)
    mediaLoop variant.id variant.productId (strTake nr.title 255) existing urls 0
      hasMedia 0 db
  else (db, 0)

/-- Translation of `_upsert_one`: one committed row.  Any raised exception
(unparseable price, create-path unparseable weight, integrity failures)
surfaces as `.error` and is caught and tallied by the commit loop. -/
def upsertOne (nr : NRow) (cache : PCache) (db : DB) :
    Except String (DB × PCache × UpOut) :=
  match pyDecimal nr.price with
  | none => .error "InvalidOperation: price"
  | some priceBase =>
    let currency0 := pyUpper nr.currency
    let currency := if VALID_CURRENCIES.contains currency0 then currency0 else "USD"
    match getOrCreateCategory db nr.category_name with
    | .error e => .error e
    | .ok (cat, db) =>
      match getOrCreateSubcategory db cat nr.subcategory_name with
      | .error e => .error e
      | .ok (subcat, db) =>
        match upsertBranch nr priceBase currency cat subcat cache db with
        | .error e => .error e
        | .ok (db, cache, variant, productCreated, variantCreated) =>
          match inventoryStep nr variant.id db with
          | .error e => .error e
          | .ok (db, inventoryAction) =>
            let (db, mediaCreated) := mediaStep nr variant db
            .ok (db, cache,
              { product_created := productCreated,
                variant_created := variantCreated,
                media_created := mediaCreated,
                inventory_action := inventoryAction })

/-- Result counters of `commit_import_payload`. -/
structure CommitResults where
  products_created : Nat
  products_updated : Nat
  variants_created : Nat
  variants_updated : Nat
  media_created : Nat
  inventory_set : Nat
  inventory_incremented : Nat
  errors : List (Nat × String)
deriving DecidableEq, Repr

/-- The row loop of `commit_import_payload` over the preview rows. -/
def commitLoop (dryRun : Bool) :
    List PRow → Nat → PCache → DB → CommitResults → DB × CommitResults
  | [], _, _, db, res => (db, res)
  | r :: rest, idx, cache, db, res =>
      if r.action = "error" ∨ r.action = "skip" then
        let res :=
          if r.action = "error" then
            { res with errors := res.errors ++ [(idx, String.intercalate "; " r.errors)] }
          else res
        commitLoop dryRun rest (idx + 1) cache db res
      else if dryRun then
        let res :=
          if r.action = "create" then
            { res with products_created := res.products_created + 1,
                       variants_created := res.variants_created + 1 }
          else if r.action = "update" then
            { res with products_updated := res.products_updated + 1,
                       variants_updated := res.variants_updated + 1 }
          else res
        let res :=
          if r.row.media_urls ≠ [] then
            { res with media_created :=
                res.media_created + (r.row.media_urls.filter truthyScalar).length }
          else res
        let res :=
          if jPresent r.row.qty_available then
            if (if r.row.stock_mode ≠ "" then r.row.stock_mode else "set") = "increment"
            then { res with inventory_incremented := res.inventory_incremented + 1 }
            else { res with inventory_set := res.inventory_set + 1 }
          else res
        commitLoop dryRun rest (idx + 1) cache db res
      else
        match upsertOne r.row cache db with
        | .ok (db, cache, out) =>
            let res :=
              if out.product_created then
                { res with products_created := res.products_created + 1 }
              else { res with products_updated := res.products_updated + 1 }
            let res :=
              if out.variant_created then
                { res with variants_created := res.variants_created + 1 }
              else { res with variants_updated := res.variants_updated + 1 }
            let res :=
              { res with media_created := res.media_created + out.media_created }
            let res :=
              if out.inventory_action = "set" then
                { res with inventory_set := res.inventory_set + 1 }
              else if out.inventory_action = "increment" then
                { res with inventory_incremented := res.inventory_incremented + 1 }
              else res
            commitLoop dryRun rest (idx + 1) cache db res
        | .error e =>
            commitLoop dryRun rest (idx + 1) cache db
              { res with errors := res.errors ++ [(idx, e)] }

/-- Zeroed commit counters. -/
def CommitResults.empty : CommitResults :=
  { products_created := 0, products_updated := 0, variants_created := 0,
    variants_updated := 0, media_created := 0, inventory_set := 0,
    inventory_incremented := 0, errors := [] }

/-- Translation of `commit_import_payload`: re-run the preview pipeline
(with the preview's own pagination defaults page=1 and per_page=500, as
the source passes no paging arguments), then upsert the non-error,
non-skip rows of that page. -/
def commitImportPayload (rowsRaw : List RawRow) (update_existing dryRun : Bool)
    (mapping : List (String × String)) (db : DB) : DB × CommitResults :=
  let preview := parseFileToPreview db rowsRaw update_existing mapping 1 500
  commitLoop dryRun preview.rows 0 [] db CommitResults.empty

/-! ## Sync orchestrator

Translated from src/providers/services/sync.py.  Raw supplier payloads are
opaque blobs; the adapter's `map_to_internal` and the payload hash are
supplied as function parameters, matching the duck-typed adapter
interface.  The mapped shape below mirrors the dictionary produced by
CJAdapter.map_to_internal as consumed by the orchestrator. -/

/-- An opaque raw supplier payload. -/
abbrev RawItem : Type := String

/-- One normalized variant of a mapped supplier item. -/
structure MappedVariant where
  sku : String
  price : Rat
  currency : Option String
  attributes : List (String × JScalar)
  weight : Rat
  dims : List (String × JScalar)
  is_active : Bool
deriving DecidableEq, Repr

/-- The product-level part of a mapped supplier item. -/
structure MappedProduct where
  title : String
  description : String
  brand : Option String
  category : Option String
  is_active : Bool
deriving DecidableEq, Repr

/-- A mapped supplier item: product, variants, external identity and the
raw payload. -/
structure Mapped where
  product : MappedProduct
  variants : List MappedVariant
  external_id : String
  raw : RawItem
deriving DecidableEq, Repr

/-- Translation of `_norm_currency` (default "USD"): falsy values fall to
the default, then uppercase. -/
def normCurrency (v : Option String) : String :=
  pyUpper (match v with
   | some s => if s ≠ "" then s else "USD"
   | none => "USD")

/-- The counts dictionary of a sync run.  Keys that the source creates on
demand via .get defaults (skipped_unchanged and the dry-run counters)
are zero-initialized fields here. -/
structure SyncCounts where
  raw_seen : Nat
  products_upserted : Nat
  variants_upserted : Nat
  variants_skipped : Nat
  links_upserted : Nat
  errors : Nat
  skipped_unchanged : Nat
  products_dry_run : Nat
  variants_dry_run : Nat
  links_dry_run : Nat
deriving DecidableEq, Repr

/-- All-zero sync counters. -/
def SyncCounts.zero : SyncCounts :=
  { raw_seen := 0, products_upserted := 0, variants_upserted := 0,
    variants_skipped := 0, links_upserted := 0, errors := 0,
    skipped_unchanged := 0, products_dry_run := 0, variants_dry_run := 0,
    links_dry_run := 0 }

/-- SupplierProduct.objects.update_or_create keyed by (provider_account,
external_id): rewrite the unique matching link row to point at the given
variant with a fresh stamp, or create it. -/
def linkUpsert (accountId : Nat) (nowT : Int) (externalId : String)
    (raw : RawItem) (variantId : Nat) (db : DB) : DB :=
  if db.links.any (fun l =>
      l.accountId = accountId ∧ l.external_id = externalId) then
    { db with links := db.links.map (fun l =>
        if l.accountId = accountId ∧ l.external_id = externalId then
          { l with variantId := variantId, raw := raw,
                   is_active := true, last_synced_at := nowT }
        else l) }
  else
    { db with links := db.links ++
        [{ accountId := accountId, variantId := variantId,
           external_id := externalId, raw := raw, is_active := true,
           last_synced_at := nowT, raw_hash := "" }] }

/-- The variant loop of `_upsert_product_tree`: per mapped variant, skip
blank SKUs, get_or_create the Variant by SKU (defaults are applied only on
creation — sku is declared unique, so the store never holds two rows with
one SKU and first-match lookup is get()), then update_or_create the
SupplierProduct link keyed by (provider_account, external_id). -/
def variantLoop (accountId : Nat) (nowT : Int) (dryRun : Bool)
    (externalId : String) (raw : RawItem) (productId : Option Nat) :
    List MappedVariant → SyncCounts → DB → Option Nat →
    Except String (DB × SyncCounts × Option Nat)
  | [], counts, db, lastVar => .ok (db, counts, lastVar)
  | v :: rest, counts, db, lastVar =>
      let sku := pyStrip v.sku
      if sku = "" then
        variantLoop accountId nowT dryRun externalId raw productId rest
          { counts with variants_skipped := counts.variants_skipped + 1 } db lastVar
      else
        let currency := normCurrency v.currency
        if dryRun then
          variantLoop accountId nowT dryRun externalId raw productId rest
            { counts with
                variants_dry_run := counts.variants_dry_run + 1
                links_dry_run := counts.links_dry_run + 1 } db lastVar
        else
          match productId with
          | none => .error "AssertionError"   -- assert product_obj is not None
          | some pid =>
            match db.variants.find? (fun w => w.sku = sku) with
            | some w =>
                variantLoop accountId nowT dryRun externalId raw productId rest
                  { counts with
                      variants_upserted := counts.variants_upserted + 1
                      links_upserted := counts.links_upserted + 1 }
                  (linkUpsert accountId nowT externalId raw w.id db)
                  (some w.id)
            | none =>
                let w : VariantR :=
                  { id := db.nextId, productId := pid, sku := sku,
                    attributes := v.attributes,
                    price_base := v.price,    -- v.get("price") or 0: the mapper always yields a number, and 0 maps to 0
                    currency := currency,
                    weight := some v.weight,  -- v.get("weight") or 0 likewise
                    dims := v.dims, is_active := v.is_active }
                variantLoop accountId nowT dryRun externalId raw productId rest
                  { counts with
                      variants_upserted := counts.variants_upserted + 1
                      links_upserted := counts.links_upserted + 1 }
                  (linkUpsert accountId nowT externalId raw w.id
                    { db with nextId := db.nextId + 1,
                              variants := db.variants ++ [w] })
                  (some w.id)

/-- Translation of `_upsert_product_tree`: get_or_create the Product by
title with safe defaults, then run the variant loop.  The defaults follow
`_product_defaults_from_mapped` against the catalog schema: description
(or empty) and is_active always; brand because Product.brand is a plain
CharField; category excluded because Product.category is a ForeignKey. -/
def upsertProductTree (mapped : Mapped) (accountId : Nat) (nowT : Int)
    (dryRun : Bool) (counts : SyncCounts) (db : DB) :
    Except String (DB × SyncCounts × Option Nat × Option Nat) :=
  let p := mapped.product
  let productStep : Except String (Option Nat × SyncCounts × DB) :=
    if dryRun then
      .ok ((none : Option Nat),
        { counts with products_dry_run := counts.products_dry_run + 1 }, db)
    else
      match db.products.filter (fun q => q.title = p.title) with
      | [] =>
          let q : ProductR :=
            { id := db.nextId, title := p.title,
              description := p.description, brand := p.brand,
              category := none, subcategory := none, is_active := p.is_active }
          .ok (some q.id,
            { counts with products_upserted := counts.products_upserted + 1 },
            { db with nextId := db.nextId + 1, products := db.products ++ [q] })
      | [q] =>
          .ok (some q.id,
            { counts with products_upserted := counts.products_upserted + 1 }, db)
      | _ => .error "Product.MultipleObjectsReturned"
  match productStep with
  | .error e => .error e
  | .ok (productId, counts, db) =>
      match variantLoop accountId nowT dryRun mapped.external_id mapped.raw
          productId mapped.variants counts db none with
      | .error e => .error e
      | .ok (db, counts, lastVar) =>
          if dryRun then .ok (db, counts, none, none)
          else .ok (db, counts, productId, lastVar)

/-- The body of the per-item try block in `sync_provider_products`: map the
raw item, apply the change-detection short-circuit when the SupplierProduct
schema tracks raw_hash, else upsert the product tree, then persist the raw
hash after a non-dry-run upsert if the field exists.  A stored
last_synced_at is a datetime and therefore always truthy, so its
truthiness test reduces to the 24-hour comparison. -/
def syncItemBodyWith (doHash : Bool) (mapFn : RawItem → Except String Mapped)
    (hashFn : RawItem → String) (accountId : Nat) (nowT : Int)
    (dryRun : Bool) (raw : RawItem) (counts : SyncCounts) (db : DB) :
    Except String (SyncCounts × DB) :=
  match mapFn raw with
  | .error e => .error e
  | .ok mapped =>
    let externalId := mapped.external_id
    let thisHash := if doHash then hashFn mapped.raw else ""
    let skip :=
      if doHash then
        match db.links.find? (fun l =>
            l.accountId = accountId ∧ l.external_id = externalId) with
        | some sp =>
            decide (sp.raw_hash = thisHash) &&
              decide (sp.last_synced_at > nowT - 86400)
        | none => false
      else false
    if skip then
      .ok ({ counts with skipped_unchanged := counts.skipped_unchanged + 1 }, db)
    else
      match upsertProductTree mapped accountId nowT dryRun counts db with
      | .error e => .error e
      | .ok (db, counts, _, _) =>
          let db :=
            if ¬ dryRun ∧ doHash then
              { db with links := db.links.map (fun l =>
                  if l.accountId = accountId ∧ l.external_id = externalId then
                    { l with raw_hash := thisHash }
                  else l) }
            else db
          .ok (counts, db)

/-- The per-item body with do_hash computed as the source computes it:
`_has_field(SupplierProduct, "raw_hash")`, which is false against the
schema of providers/models.py. -/
def syncItemBody (mapFn : RawItem → Except String Mapped)
    (hashFn : RawItem → String) (accountId : Nat) (nowT : Int)
    (dryRun : Bool) (raw : RawItem) (counts : SyncCounts) (db : DB) :
    Except String (SyncCounts × DB) :=
  syncItemBodyWith (supplierProductHasField "raw_hash") mapFn hashFn accountId
    nowT dryRun raw counts db

/-- One event of the adapter stream: a yielded raw item, or the generator
raising (a fetch failure) at that point of the iteration. -/
inductive FetchEvent where
  | item (raw : RawItem)
  | fetchFail
deriving DecidableEq, Repr

/-- The iteration of `sync_provider_products` over the adapter stream:
per-item failures are caught and counted with the first message retained;
a generator failure propagates (raised = true); a reached limit breaks. -/
def syncLoop (mapFn : RawItem → Except String Mapped)
    (hashFn : RawItem → String) (accountId : Nat) (nowT : Int)
    (dryRun : Bool) (limit : Option Nat) :
    List FetchEvent → SyncCounts → DB → Option String →
    SyncCounts × DB × Option String × Bool
  | [], counts, db, firstErr => (counts, db, firstErr, false)
  | .fetchFail :: _, counts, db, firstErr => (counts, db, firstErr, true)
  | .item raw :: rest, counts, db, firstErr =>
      -- `if limit and counts["raw_seen"] >= limit: break` (limit 0 is falsy)
      if (match limit with
          | some l => decide (l ≠ 0) && decide (counts.raw_seen ≥ l)
          | none => false) then
        (counts, db, firstErr, false)
      else
        let counts := { counts with raw_seen := counts.raw_seen + 1 }
        match syncItemBody mapFn hashFn accountId nowT dryRun raw counts db with
        | .ok (counts, db) =>
            syncLoop mapFn hashFn accountId nowT dryRun limit rest counts db firstErr
        | .error e =>
            let counts := { counts with errors := counts.errors + 1 }
            let firstErr := match firstErr with
              | none => some e
              | some m => some m
            syncLoop mapFn hashFn accountId nowT dryRun limit rest counts db firstErr

/-- The ProviderSyncLog row of one run. -/
structure LogRow where
  status : String
  first_error : String
  started_at : Int
  finished_at : Option Int
  duration_ms : Int
  counts : Option SyncCounts
deriving DecidableEq, Repr

/-- Everything observable about one call of `sync_provider_products`. -/
structure RunOutcome where
  log : LogRow
  db : DB
  counts : SyncCounts
  raised : Bool
deriving DecidableEq, Repr

/-- Translation of `sync_provider_products`.  `lockHeld` is whether
another run holds the 15-minute cache lock when `cache.add` is attempted:
in that case the log row is finalized with status error and the call
raises before entering the try block.  Otherwise the stream is iterated
and the finally block finalizes the log row unconditionally — computing
the status from the item error count alone — and any generator exception
is then re-raised (raised = true). -/
def syncRun (mapFn : RawItem → Except String Mapped)
    (hashFn : RawItem → String) (accountId : Nat)
    (events : List FetchEvent) (lockHeld dryRun : Bool) (limit : Option Nat)
    (t0 tNow tEnd : Int) (db : DB) : RunOutcome :=
  let logRow : LogRow :=
    { status := "success", first_error := "", started_at := t0,
      finished_at := none, duration_ms := 0, counts := none }
  if lockHeld then
    { log := { logRow with
        status := "error"
        first_error := "Concurrency lock: another sync is running."
        finished_at := some tEnd
        duration_ms := (tEnd - t0) * 1000
        counts := some SyncCounts.zero }
      db := db, counts := SyncCounts.zero, raised := true }
  else
    let (counts, db, firstErr, raisedMid) :=
      syncLoop mapFn hashFn accountId tNow dryRun limit events
        SyncCounts.zero db none
    let status := if counts.errors = 0 then "success" else "partial"
    { log := { logRow with
        status := status
        first_error := match firstErr with | some e => e | none => ""
        finished_at := some tEnd
        duration_ms := (tEnd - t0) * 1000
        counts := some counts }
      db := db, counts := counts, raised := raisedMid }

/-! ## CJ adapter: token lifecycle

Translated from src/providers/adapters/cj.py.  The HTTP POSTs issued by
login and refresh are abstracted to their observable outcomes; the
response-shape fallbacks (data / result / top level, accessToken / token /
access_token, expiresIn / accessTokenExpiresIn) are modelled at the
already-coalesced level as an `AuthData` record, since every claim is
about the coalesced values. -/

/-- Token state of a CJAdapter (tokens plus expiry instants). -/
structure TokenSt where
  token : Option String
  refreshToken : Option String
  tokenExpiry : Option Int
  refreshExpiry : Option Int
deriving DecidableEq, Repr

/-- Credentials consulted by `_login`. -/
structure Creds where
  email : Option String
  apiKey : Option String
  password : Option String
deriving DecidableEq, Repr

/-- Parsed body of a login/refresh response (after the data/result and
key-name coalescing).  expiresIn fields carry seconds, as `_parse_expiry`
consumes them; an unparseable or absent field is none. -/
structure AuthData where
  access : Option String
  refresh : Option String
  expiresIn : Option Int
  refreshExpiresIn : Option Int
deriving DecidableEq, Repr

/-- Observable outcome of one login/refresh POST. -/
inductive PostOutcome where
  | ok (d : AuthData)
  | rateLimited
  | httpFail
deriving DecidableEq, Repr

/-- Error surface of the token layer: RateLimitedError, CJAuthError, or a
propagated (decorated) HTTP error. -/
inductive AErr where
  | rateLimited
  | auth (msg : String)
  | http
deriving DecidableEq, Repr

/-- Which network-facing calls `_ensure_token` actually performed. -/
inductive AuthCall where
  | refreshCall
  | login
deriving DecidableEq, Repr

/-- Python truthiness of an optional string (None and the empty string are
falsy). -/
def optTruthy : Option String → Bool
  | some s => s ≠ ""
  | none => false

/-- Translation of `CJAdapter._login`.  Returns the new token state and
whether the save-tokens callback fired.  A RateLimitedError from the POST
is converted to CJAuthError (no path forward under the daily limit); any
other HTTP failure propagates as-is. -/
def loginFn (creds : Creds) (out : PostOutcome) (nowT : Int) :
    Except AErr (TokenSt × Bool) :=
  if ¬ optTruthy creds.email ∨ (¬ optTruthy creds.apiKey ∧ ¬ optTruthy creds.password) then
    .error (.auth "Missing CJ credentials: email and api_key or password required")
  else
    match out with
    | .rateLimited => .error (.auth "Rate-limited during login")
    | .httpFail => .error .http
    | .ok d =>
        if ¬ optTruthy d.access then .error (.auth "Login failed")
        else
          .ok ({ token := d.access, refreshToken := d.refresh,
                 tokenExpiry := d.expiresIn.map (fun s => nowT + s),
                 refreshExpiry := d.refreshExpiresIn.map (fun s => nowT + s) },
               true)

/-- Translation of `CJAdapter._refresh`.  Returns (ok, new state, saved).
With no refresh token it reports failure; a rate-limited POST is swallowed
and reports success exactly when an old access token is still held; a
response with no usable access token reports failure; other HTTP failures
propagate. -/
def refreshFn (st : TokenSt) (out : PostOutcome) (nowT : Int) :
    Except AErr (Bool × TokenSt × Bool) :=
  if ¬ optTruthy st.refreshToken then .ok (false, st, false)
  else
    match out with
    | .rateLimited => .ok (optTruthy st.token, st, false)
    | .httpFail => .error .http
    | .ok d =>
        if ¬ optTruthy d.access then .ok (false, st, false)
        else
          let refresh :=
            match d.refresh with
            | some r => if r ≠ "" then some r else st.refreshToken
            | none => st.refreshToken
          let refreshExp :=
            match d.refreshExpiresIn.map (fun s => nowT + s) with
            | some e => some e
            | none => st.refreshExpiry
          .ok (true,
               { token := d.access, refreshToken := refresh,
                 tokenExpiry := d.expiresIn.map (fun s => nowT + s),
                 refreshExpiry := refreshExp },
               true)

/-- The reuse guard of `_ensure_token`: a token is held and its expiry is
either unknown or more than 10 minutes (600 seconds) away. -/
def tokenReusable (st : TokenSt) (nowT : Int) : Bool :=
  optTruthy st.token && st.tokenExpiry.all (fun e => decide (e > nowT + 600))

/-- The refresh guard of `_ensure_token`: a refresh token is held and its
own expiry is unknown or still in the future. -/
def refreshUsable (st : TokenSt) (nowT : Int) : Bool :=
  optTruthy st.refreshToken && st.refreshExpiry.all (fun e => decide (e > nowT))

/-- Translation of `CJAdapter._ensure_token`: reuse, else refresh when the
refresh token is usable, else (or on refresh failure) full login.  Also
reports which calls were made. -/
def ensureToken (creds : Creds) (st : TokenSt)
    (refreshOut loginOut : PostOutcome) (nowT : Int) :
    Except AErr (TokenSt × List AuthCall) :=
  if tokenReusable st nowT then .ok (st, [])
  else if refreshUsable st nowT then
    match refreshFn st refreshOut nowT with
    | .error e => .error e
    | .ok (true, st1, _) => .ok (st1, [.refreshCall])
    | .ok (false, _, _) =>
        match loginFn creds loginOut nowT with
        | .error e => .error e
        | .ok (st2, _) => .ok (st2, [.refreshCall, .login])
  else
    match loginFn creds loginOut nowT with
    | .error e => .error e
    | .ok (st2, _) => .ok (st2, [.login])

/-! ## CJ adapter: HTTP client wrapper

Translation of `CJAdapter._http_get` (`_http_post` is textually
identical in control flow) together with `_is_rate_limited` and
`_decorate_http_error`.  Each network attempt is abstracted to its
observable outcome: a connection-level failure with no response, or a
response with a status code, an optional vendor code found in its JSON
body, and a body text. -/

/-- An HTTP response as inspected by the wrapper: status code, the str()
of a code field when the body parses to a dict carrying one, and the
body text. -/
structure RespInfo where
  status : Nat
  jsonCode : Option String
  bodyText : String
deriving DecidableEq, Repr

/-- One attempt of the retry loop: a connection error (request raised, no
response object assigned) or a received response. -/
inductive AttemptOutcome where
  | conn
  | resp (r : RespInfo)
deriving DecidableEq, Repr

/-- Translation of `_is_rate_limited`: HTTP 429, or a vendor rate-limit
code 1600200 / 1600201 in the JSON body. -/
def isRateLimitedResp (r : RespInfo) : Bool :=
  decide (r.status = 429) ||
    (match r.jsonCode with
     | some c => decide (c = "1600200") || decide (c = "1600201")
     | none => false)

/-- Result of one `_http_get` call.  err carries the response available
for `_decorate_http_error` — none when no response was ever received, in
which case the bare exception surfaces undecorated. -/
inductive HttpResult where
  | ok (r : RespInfo)
  | rateLimited
  | err (decorationResp : Option RespInfo)
deriving DecidableEq, Repr

/-- CJAdapter.DEFAULT_RETRIES. -/
def DEFAULT_RETRIES : Nat := 3

/-- The retry loop of `_http_get`.  Arguments: outcomes of successive
attempts, the 1-based attempt number, requests made so far, remaining
daily budget (the `_budget` charge raises RateLimitedError when
exhausted, before the request is issued), the last response assigned to
the`resp` local (which persists across loop iterations), and the backoff
sleeps (milliseconds) performed so far.  Returns the result, the number
of requests issued, and the sleeps. -/
def httpGetGo (retries : Nat) :
    List AttemptOutcome → Nat → Nat → Nat → Option RespInfo → List Nat →
    HttpResult × Nat × List Nat
  | _, _, made, 0, _, sleeps => (.rateLimited, made, sleeps)
  | [], _, made, _ + 1, lastResp, sleeps => (.err lastResp, made, sleeps)
  | o :: rest, attempt, made, b + 1, lastResp, sleeps =>
      match o with
      | .conn =>
          if attempt ≥ retries then (.err lastResp, made + 1, sleeps)
          else
            httpGetGo retries rest (attempt + 1) (made + 1) b lastResp
              (sleeps ++ [500 * attempt])
      | .resp r =>
          if isRateLimitedResp r then (.rateLimited, made + 1, sleeps)
          else if r.status ≥ 400 then
            if attempt ≥ retries then (.err (some r), made + 1, sleeps)
            else
              httpGetGo retries rest (attempt + 1) (made + 1) b (some r)
                (sleeps ++ [500 * attempt])
          else (.ok r, made + 1, sleeps)

/-- Translation of `_http_get`: run the retry loop from attempt 1 with the
given retry cap and remaining daily budget. -/
def httpGet (retries budget : Nat) (outs : List AttemptOutcome) :
    HttpResult × Nat × List Nat :=
  httpGetGo retries outs 1 0 budget none []

/-- An attempt that fails without being rate-limited: a connection error,
or a received response that raise_for_status rejects (status at least
400) and that is not classified rate-limited. -/
def failsNonRateB : AttemptOutcome → Bool
  | .conn => true
  | .resp r => !isRateLimitedResp r && decide (r.status ≥ 400)

/-- The response held by the `resp` local after a run of attempts: the
last received response, carried over from `lastResp` when none arrived. -/
def lastRespOf (lastResp : Option RespInfo) (outs : List AttemptOutcome) :
    Option RespInfo :=
  outs.foldl (fun acc o => match o with | .resp r => some r | .conn => acc)
    lastResp

/-- The backoff sleeps (milliseconds) after failed attempts a, a+1, ...,
a+n-1: 500·a, 500·(a+1), ... -/
def sleepsFrom (a : Nat) : Nat → List Nat
  | 0 => []
  | n + 1 => 500 * a :: sleepsFrom (a + 1) n

/-- Whether an HttpResult is a decorated error carrying a response. -/
def errHasResp : HttpResult → Bool
  | .err (some _) => true
  | _ => false

/-- Formalization of the reuse condition as the claim words it: the
current token's expiry (a known instant) is more than 10 minutes away.
Stated from the claim, not the source, to compare against the source's
`tokenReusable`, which also reuses when the expiry is unknown. -/
def claimExpiryMoreThan10mAway (st : TokenSt) (nowT : Int) : Prop :=
  ∃ e, st.tokenExpiry = some e ∧ e > nowT + 600

/-! ## Concrete instances used by witnesses and counterexamples -/

/-- A catalog holding one variant with SKU A under one product. -/
def dbW : DB :=
  { nextId := 3, categories := [], subcategories := []
    products := [{ id := 1, title := "Existing", description := "",
                   brand := some "", category := none, subcategory := none,
                   is_active := true }]
    variants := [{ id := 2, productId := 1, sku := "A", attributes := [],
                   price_base := 10, currency := "USD", weight := none,
                   dims := [], is_active := true }]
    inventories := [{ variantId := 2, qty_available := 7, safety_stock := 1,
                      warehouse := none }]
    media := [], links := [] }

/-- A valid uploaded row targeting SKU A. -/
def rawW : RawRow :=
  [("title", JVal.s "T"), ("sku", JVal.s "A"), ("price", JVal.s "1")]

/-- The normalization of `rawW`. -/
def nrW : NRow := normalizeRow rawW

/-- A valid uploaded row targeting SKU A that sets inventory. -/
def rawInvSet : RawRow :=
  [("title", JVal.s "T"), ("sku", JVal.s "A"), ("price", JVal.s "1"),
   ("qty_available", JVal.n 20), ("stock_mode", JVal.s "set")]

/-- A valid uploaded row targeting SKU A that increments inventory. -/
def rawInvInc : RawRow :=
  [("title", JVal.s "T"), ("sku", JVal.s "A"), ("price", JVal.s "1"),
   ("qty_available", JVal.n 5), ("stock_mode", JVal.s "increment")]

/-- A minimal valid row used to build the 501-row truncation payload. -/
def rawC2 : RawRow :=
  [("title", JVal.s "T"), ("sku", JVal.s "A"), ("price", JVal.s "1")]

/-- An adapter mapping that always fails (its items never map). -/
def mapNone : RawItem → Except String Mapped :=
  fun _ => .error "KeyError: pid"

/-- An adapter mapping yielding one product with one variant, external id
E1. -/
def mapOne : RawItem → Except String Mapped :=
  fun r =>
    .ok { product := { title := "P", description := "", brand := none,
                       category := none, is_active := true }
          variants := [{ sku := "S1", price := 5, currency := none,
                         attributes := [], weight := 0, dims := [],
                         is_active := true }]
          external_id := "E1", raw := r }

/-- The identity payload hash (any hash function gives equal hashes to the
equal payloads of the C6 scenario). -/
def hashId : RawItem → String := fun r => r

/-- The store after one successful sync of raw1 through `mapOne` for
account 7 at time 10: the link for (7, E1) was stamped then. -/
def dbC6 : DB :=
  { nextId := 3, categories := [], subcategories := []
    products := [{ id := 1, title := "P", description := "", brand := none,
                   category := none, subcategory := none, is_active := true }]
    variants := [{ id := 2, productId := 1, sku := "S1", attributes := [],
                   price_base := 5, currency := "USD", weight := some 0,
                   dims := [], is_active := true }]
    inventories := [], media := []
    links := [{ accountId := 7, variantId := 2, external_id := "E1",
                raw := "raw1", is_active := true, last_synced_at := 10,
                raw_hash := "" }] }

/-- Complete CJ credentials. -/
def credsW : Creds :=
  { email := some "user at example", apiKey := some "key", password := none }

/-- A token state with an access token whose expiry is unknown. -/
def stNoExpiry : TokenSt :=
  { token := some "TOK", refreshToken := none, tokenExpiry := none,
    refreshExpiry := none }

/-- A token state with a near-expiry access token and a usable refresh
token. -/
def stNearExpiry : TokenSt :=
  { token := some "TOK", refreshToken := some "REF", tokenExpiry := some 100,
    refreshExpiry := none }

/-- A mapped supplier item with two variants, one of them targeting the
pre-existing SKU A of `dbW`. -/
def mappedW : Mapped :=
  { product := { title := "Mapped title", description := "d", brand := none,
                 category := some "Cat", is_active := true }
    variants :=
      [{ sku := "A", price := 99, currency := some "usd", attributes := [],
         weight := 1, dims := [], is_active := true },
       { sku := "B", price := 3, currency := none, attributes := [],
         weight := 0, dims := [], is_active := true }]
    external_id := "EXT-9", raw := "rawpayload" }

/-- Decidable equality of Except results, for concrete evaluation in
witnesses. -/
instance {e a : Type} [DecidableEq e] [DecidableEq a] :
    DecidableEq (Except e a) := fun x y =>
  match x, y with
  | .ok u, .ok v =>
      if h : u = v then isTrue (by rw [h])
      else isFalse (fun hc => by cases hc; exact h rfl)
  | .error u, .error v =>
      if h : u = v then isTrue (by rw [h])
      else isFalse (fun hc => by cases hc; exact h rfl)
  | .ok _, .error _ => isFalse (fun hc => by cases hc)
  | .error _, .ok _ => isFalse (fun hc => by cases hc)

/-- The item counts after re-syncing the unchanged raw1 into dbC6. -/
def c6ResCounts : SyncCounts :=
  { SyncCounts.zero with
    products_upserted := 1
    variants_upserted := 1
    links_upserted := 1 }

/-- The store after re-syncing the unchanged raw1 into dbC6 at time 100:
identical except the link row's fresh stamp. -/
def c6ResDB : DB :=
  { dbC6 with
    links := [{ accountId := 7, variantId := 2,
                external_id := "E1", raw := "raw1", is_active := true,
                last_synced_at := 100, raw_hash := "" }] }

/-- A successful refresh response body. -/
def authDataW : AuthData :=
  { access := some "NEW", refresh := some "R2", expiresIn := some 5000,
    refreshExpiresIn := none }

/-- The token state after applying authDataW at time 0. -/
def stRefreshedW : TokenSt :=
  { token := some "NEW", refreshToken := some "R2",
    tokenExpiry := some 5000, refreshExpiry := none }

/-- The variant row of dbW. -/
def vW : VariantR :=
  { id := 2, productId := 1, sku := "A", attributes := [], price_base := 10,
    currency := "USD", weight := none, dims := [], is_active := true }

/-- The inventory row of dbW (prior quantity 7). -/
def invW : InventoryR :=
  { variantId := 2, qty_available := 7, safety_stock := 1, warehouse := none }

/-- The store after committing rawInvSet into dbW: quantity set to 20. -/
def c4SetDB : DB :=
  { nextId := 3, categories := [], subcategories := []
    products := [{ id := 1, title := "T", description := "",
                   brand := some "", category := none, subcategory := none,
                   is_active := true }]
    variants := [{ id := 2, productId := 1, sku := "A", attributes := [],
                   price_base := 1, currency := "USD", weight := none,
                   dims := [], is_active := true }]
    inventories := [{ variantId := 2, qty_available := 20, safety_stock := 1,
                      warehouse := none }]
    media := [], links := [] }

/-- The store after committing rawInvInc into dbW: quantity 7 + 5 = 12. -/
def c4IncDB : DB :=
  { c4SetDB with
    inventories := [{ variantId := 2, qty_available := 12, safety_stock := 1,
                      warehouse := none }] }

/-- The result of upserting mappedW into dbW for account 7 at time 100:
the existing SKU-A variant row 2 survives verbatim, SKU B is created as
row 4, the mapped product is created, and the single (7, EXT-9) link row
ends pointing at the last variant with a fresh stamp. -/
def c10Out : DB × SyncCounts × Option Nat × Option Nat :=
  ({ nextId := 5, categories := [], subcategories := []
     products := [{ id := 1, title := "Existing", description := "",
                    brand := some "", category := none, subcategory := none,
                    is_active := true },
                  { id := 3, title := "Mapped title", description := "d",
                    brand := none, category := none, subcategory := none,
                    is_active := true }]
     variants := [{ id := 2, productId := 1, sku := "A", attributes := [],
                    price_base := 10, currency := "USD", weight := none,
                    dims := [], is_active := true },
                  { id := 4, productId := 3, sku := "B", attributes := [],
                    price_base := 3, currency := "USD", weight := some 0,
                    dims := [], is_active := true }]
     inventories := [{ variantId := 2, qty_available := 7, safety_stock := 1,
                       warehouse := none }]
     media := []
     links := [{ accountId := 7, variantId := 4, external_id := "EXT-9",
                 raw := "rawpayload", is_active := true,
                 last_synced_at := 100, raw_hash := "" }] },
   { SyncCounts.zero with
     products_upserted := 1
     variants_upserted := 2
     links_upserted := 2 },
   some 3, some 4)

/-- The ordered (id, sku) skeleton of the variant store. -/
def skuIds (db : DB) : List (Nat × String) :=
  db.variants.map (fun v => (v.id, v.sku))

/-- Importer well-formedness, established by the empty store and
maintained by every committed row: unique taxonomy keys, unique variant
SKUs and ids, primary keys below the id counter, and referential
integrity of variants and of the run cache into the product store. -/
def ImportWF (db : DB) (cache : PCache) : Prop :=
  db.categories.Pairwise (fun a b => a.name ≠ b.name) ∧
  db.subcategories.Pairwise
    (fun a b => ¬(a.categoryId = b.categoryId ∧ a.name = b.name)) ∧
  db.variants.Pairwise (fun a b => a.sku ≠ b.sku) ∧
  db.variants.Pairwise (fun a b => a.id ≠ b.id) ∧
  (∀ v ∈ db.variants, v.id < db.nextId) ∧
  (∀ v ∈ db.variants, ∃ p ∈ db.products, p.id = v.productId) ∧
  (∀ e ∈ cache, ∃ p ∈ db.products, p.id = e.2)

/-- Row coverage by a store: the variant row found for the row's SKU
exists, and the string form of every truthy media cell of the row is
attached to that variant as external media. -/
def rowCovered (nr : NRow) (db : DB) : Prop :=
  ∃ i, (skuIds db).find? (fun e => e.2 = nr.sku) = some (i, nr.sku) ∧
    ∀ u ∈ nr.media_urls.filter truthyScalar,
      ∃ m ∈ db.media, m.variantId = some i ∧ m.kind = "external" ∧
        m.url = pyStrScalar u

/-- A valid uploaded row: SKU A, a string media URL and a set-mode
quantity. -/
def c5Row : RawRow :=
  [("title", JVal.s "T"), ("sku", JVal.s "A"), ("price", JVal.s "1"),
   ("media_urls", JVal.arr [JScalar.str "u1"]),
   ("qty_available", JVal.n 5)]

/-- The single-row idempotence payload. -/
def c5Rows : List RawRow := [c5Row]

/-- A valid uploaded row whose media cell is the JSON number 5 (truthy but
not a string). -/
def c5BadRows : List RawRow :=
  [[("title", JVal.s "T"), ("sku", JVal.s "A"), ("price", JVal.s "1"),
    ("media_urls", JVal.arr [JScalar.num 5])]]

/-- The store and counters after committing c5Rows into the empty store. -/
def c5Run1 : DB × CommitResults :=
  ({ nextId := 4, categories := [], subcategories := []
     products := [{ id := 1, title := "T", description := "",
                    brand := some "", category := none, subcategory := none,
                    is_active := true }]
     variants := [{ id := 2, productId := 1, sku := "A", attributes := [],
                    price_base := 1, currency := "USD", weight := none,
                    dims := [], is_active := true }]
     inventories := [{ variantId := 2, qty_available := 5,
                       safety_stock := 0, warehouse := none }]
     media := [{ id := 3, productId := some 1, variantId := some 2,
                 kind := "external", url := "u1", alt := "T",
                 is_main := true, position := 0 }]
     links := [] },
   { products_created := 1, products_updated := 0, variants_created := 1,
     variants_updated := 0, media_created := 1, inventory_set := 1,
     inventory_incremented := 0, errors := [] })

/-- The store and counters after re-committing c5Rows: the store is
byte-for-byte the run-1 store, and only the updated counters move. -/
def c5Run2 : DB × CommitResults :=
  (c5Run1.1,
   { products_created := 0, products_updated := 1, variants_created := 0,
     variants_updated := 1, media_created := 0, inventory_set := 1,
     inventory_incremented := 0, errors := [] })

/-! ## Claim C3 -/

/-- C3: for every valid normalized row, classification returns create iff
no Variant with that SKU exists; update iff one exists and upsert is
enabled; skip iff one exists and upsert is disabled; and a row that fails
validation is classified error with an outcome independent of the store,
i.e. without the existence check ever running. -/
theorem c3_classification (db : DB) (nr : NRow) (upsert : Bool) :
    (validateRow nr = [] →
      ((previewAction db nr upsert = "create" ↔
          ¬ ∃ v ∈ db.variants, v.sku = nr.sku) ∧
       (previewAction db nr upsert = "update" ↔
          ((∃ v ∈ db.variants, v.sku = nr.sku) ∧ upsert = true)) ∧
       (previewAction db nr upsert = "skip" ↔
          ((∃ v ∈ db.variants, v.sku = nr.sku) ∧ upsert = false)))) ∧
    (validateRow nr ≠ [] →
      ∀ db2 : DB, previewAction db2 nr upsert = "error") := by
  constructor
  · intro hval
    have hex : (db.variants.any (fun v => v.sku = nr.sku) = true) ↔
        ∃ v ∈ db.variants, v.sku = nr.sku := by
      simp [List.any_eq_true]
    simp only [previewAction, classifyAction]
    rw [if_pos hval]
    cases hb : db.variants.any (fun v => v.sku = nr.sku) <;> cases upsert <;>
      rw [hb] at hex <;> rw [← hex] <;> decide
  · intro hval db2
    unfold previewAction
    rw [if_neg hval]

/-- C3 witness: the valid row rawW targets SKU A, which exists in dbW, and
its preview action under upsert is update. -/
theorem c3_classification_witness :
    validateRow nrW = [] ∧ previewAction dbW nrW true = "update" :=
  ⟨by decide,
   ((c3_classification dbW nrW true).1 (by decide)).2.1.mpr ⟨by decide, rfl⟩⟩

/-! ## Claim C2 -/

set_option maxRecDepth 10000 in
/-- C2: commit_import_payload iterates the PAGINATED preview rows (page 1,
per_page 500 — the preview defaults, since commit passes no paging
arguments), not the full row list.  On a payload of 501 valid rows, all
501 are non-error/non-skip, yet the commit touches only 500 of them: the
tallied outcomes (variants created plus updated) total 500 with no
errors, so one valid row is silently left unprocessed, contradicting the
claim that every non-error/non-skip row of the file is upserted. -/
theorem c2_commit_truncates_at_500 :
    ((previewRowsFull DB.empty (List.replicate 501 rawC2) true []).filter
      (fun r => r.action ≠ "error" ∧ r.action ≠ "skip")).length = 501 ∧
    ((commitImportPayload (List.replicate 501 rawC2) true false []
        DB.empty).2.variants_created +
      (commitImportPayload (List.replicate 501 rawC2) true false []
        DB.empty).2.variants_updated = 500) ∧
    (commitImportPayload (List.replicate 501 rawC2) true false []
      DB.empty).2.errors = [] := by
  decide

/-! ## Claim C1 -/

/-- C1 counterexample: a run whose fetch fails before any item is
processed (the generator raises on its first advance) still finalizes
with status success, not error: the finally block computes the status
from the item error count alone, and the zero-error count of the aborted
iteration yields success even though the call re-raises.  finished_at is
set and the exception propagates (raised), but the status contradicts the
claim that such a run is recorded as error. -/
theorem c1_fetchfail_not_error :
    (syncRun mapNone hashId 7 [FetchEvent.fetchFail] false false none
      0 10 20 DB.empty).log.status = "success" ∧
    (syncRun mapNone hashId 7 [FetchEvent.fetchFail] false false none
      0 10 20 DB.empty).raised = true ∧
    (syncRun mapNone hashId 7 [FetchEvent.fetchFail] false false none
      0 10 20 DB.empty).counts.errors = 0 := by
  decide

/-- C1 amended: for every sync run, the log row's finished_at is set when
the run ends; a lock-contention run is recorded as error (and raises);
for every run that acquires the lock — including a run aborted by a fetch
failure mid-iteration, which re-raises after finalization — the final
status is success exactly when zero item errors occurred and partial
exactly when at least one occurred: a fetch failure itself is not
reflected in the status. -/
theorem c1_finalize_status (mapFn : RawItem → Except String Mapped)
    (hashFn : RawItem → String) (accountId : Nat) (events : List FetchEvent)
    (lockHeld dryRun : Bool) (limit : Option Nat) (t0 tNow tEnd : Int)
    (db : DB) :
    ((syncRun mapFn hashFn accountId events lockHeld dryRun limit t0 tNow
        tEnd db).log.finished_at = some tEnd) ∧
    (lockHeld = true →
      (syncRun mapFn hashFn accountId events lockHeld dryRun limit t0 tNow
        tEnd db).log.status = "error" ∧
      (syncRun mapFn hashFn accountId events lockHeld dryRun limit t0 tNow
        tEnd db).raised = true) ∧
    (lockHeld = false →
      ((syncRun mapFn hashFn accountId events lockHeld dryRun limit t0 tNow
          tEnd db).log.status = "success" ↔
        (syncRun mapFn hashFn accountId events lockHeld dryRun limit t0 tNow
          tEnd db).counts.errors = 0) ∧
      ((syncRun mapFn hashFn accountId events lockHeld dryRun limit t0 tNow
          tEnd db).log.status = "partial" ↔
        0 < (syncRun mapFn hashFn accountId events lockHeld dryRun limit t0
          tNow tEnd db).counts.errors)) := by
  cases lockHeld
  · rcases hloop : syncLoop mapFn hashFn accountId tNow dryRun limit events
        SyncCounts.zero db none with ⟨counts, db2, firstErr, raisedMid⟩
    simp only [syncRun, Bool.false_eq_true, if_false, hloop]
    refine ⟨trivial, fun h => h.elim, fun _ => ?_⟩
    by_cases he : counts.errors = 0
    · rw [if_pos he]
      exact ⟨⟨fun _ => he, fun _ => rfl⟩,
             ⟨fun hc => absurd hc (by decide), fun hc => by omega⟩⟩
    · rw [if_neg he]
      exact ⟨⟨fun hc => absurd hc (by decide), fun hc => absurd hc he⟩,
             ⟨fun _ => by omega, fun _ => rfl⟩⟩
  · simp only [syncRun, if_true]
    exact ⟨trivial, fun _ => ⟨trivial, trivial⟩, fun h => Bool.noConfusion h⟩

/-- C1 witness: a non-locked run with one item whose mapping fails is
finalized as partial with finished_at set; a locked run is error. -/
theorem c1_finalize_status_witness :
    (syncRun mapNone hashId 7 [FetchEvent.item "x"] false false none
      0 10 20 DB.empty).log.status = "partial" ∧
    (syncRun mapOne hashId 7 [] true false none
      0 10 20 DB.empty).log.status = "error" := by
  constructor
  · exact ((c1_finalize_status mapNone hashId 7 [FetchEvent.item "x"] false
      false none 0 10 20 DB.empty).2.2 rfl).2.mpr (by decide)
  · exact ((c1_finalize_status mapOne hashId 7 [] true false none
      0 10 20 DB.empty).2.1 rfl).1

/-! ## Claim C6 -/

/-- The variant loop never touches the skipped_unchanged counter. -/
theorem variantLoop_skipped_unchanged (accountId : Nat) (nowT : Int)
    (dryRun : Bool) (ext : String) (raw : RawItem) (pid : Option Nat) :
    ∀ (vs : List MappedVariant) (counts : SyncCounts) (db : DB)
      (lastVar : Option Nat) (out : DB × SyncCounts × Option Nat),
      variantLoop accountId nowT dryRun ext raw pid vs counts db lastVar
        = .ok out →
      out.2.1.skipped_unchanged = counts.skipped_unchanged := by
  intro vs
  induction vs with
  | nil =>
      intro counts db lastVar out h
      cases h; rfl
  | cons v rest ih =>
      intro counts db lastVar out h
      simp only [variantLoop] at h
      split at h
      · exact (ih _ _ _ _ h).trans rfl
      · split at h
        · exact (ih _ _ _ _ h).trans rfl
        · split at h
          · simp at h
          · split at h <;> exact (ih _ _ _ _ h).trans rfl

/-- The product-tree upsert never touches the skipped_unchanged counter. -/
theorem upsertProductTree_skipped_unchanged (mapped : Mapped)
    (accountId : Nat) (nowT : Int) (dryRun : Bool) (counts : SyncCounts)
    (db : DB) (out : DB × SyncCounts × Option Nat × Option Nat) :
    upsertProductTree mapped accountId nowT dryRun counts db = .ok out →
    out.2.1.skipped_unchanged = counts.skipped_unchanged := by
  intro h
  simp only [upsertProductTree] at h
  split at h
  · simp at h
  · rename_i pid counts1 db1 heq
    have hc1 : counts1.skipped_unchanged = counts.skipped_unchanged := by
      split at heq
      · cases heq; rfl
      · split at heq
        · cases heq; rfl
        · cases heq; rfl
        · simp at heq
    split at h
    · simp at h
    · rename_i hloop
      have h2 := variantLoop_skipped_unchanged accountId nowT dryRun
        mapped.external_id mapped.raw pid mapped.variants counts1 db1 none _ hloop
      split at h <;> cases h <;> exact h2.trans hc1

/-- C6 counterexample: the store dbC6 holds the link for (7, E1) with the
identical raw payload synced at time 10; re-syncing the same payload at
time 100 (well within 24 hours) does NOT increment skipped_unchanged (it
stays 0) and performs catalog writes for the item (the variant is
re-upserted and the link row is rewritten with a fresh stamp), because
SupplierProduct has no raw_hash field and the short-circuit is disabled. -/
theorem c6_unchanged_item_not_skipped :
    (syncRun mapOne hashId 7 [FetchEvent.item "raw1"] false false none
      0 100 200 dbC6).counts.skipped_unchanged = 0 ∧
    (syncRun mapOne hashId 7 [FetchEvent.item "raw1"] false false none
      0 100 200 dbC6).counts.variants_upserted = 1 ∧
    (syncRun mapOne hashId 7 [FetchEvent.item "raw1"] false false none
      0 100 200 dbC6).db.links ≠ dbC6.links := by
  decide

/-- C6 amended: the change-detection short-circuit is guarded by
_has_field(SupplierProduct, raw_hash), and the SupplierProduct model
declares no such field, so do_hash is always false: no sync item is ever
skipped as unchanged and skipped_unchanged is never incremented — every
successfully mapped item proceeds to the catalog upsert.  Had the field
existed (do_hash true), an item whose payload hash equals the stored hash
with last_synced_at within the last 24 hours would be counted in
skipped_unchanged and would leave the store untouched. -/
theorem c6_short_circuit_disabled (mapFn : RawItem → Except String Mapped)
    (hashFn : RawItem → String) (accountId : Nat) (nowT : Int)
    (dryRun : Bool) (raw : RawItem) (counts : SyncCounts) (db : DB) :
    supplierProductHasField "raw_hash" = false ∧
    (∀ counts2 db2,
      syncItemBody mapFn hashFn accountId nowT dryRun raw counts db
        = .ok (counts2, db2) →
      counts2.skipped_unchanged = counts.skipped_unchanged) ∧
    (∀ mapped sp, mapFn raw = .ok mapped →
      db.links.find? (fun l =>
        l.accountId = accountId ∧ l.external_id = mapped.external_id)
          = some sp →
      sp.raw_hash = hashFn mapped.raw →
      sp.last_synced_at > nowT - 86400 →
      syncItemBodyWith true mapFn hashFn accountId nowT dryRun raw counts db
        = .ok ({ counts with
                 skipped_unchanged := counts.skipped_unchanged + 1 }, db)) := by
  refine ⟨by decide, ?_, ?_⟩
  · intro counts2 db2 h
    have hf : supplierProductHasField "raw_hash" = false := by decide
    simp only [syncItemBody, hf] at h
    simp only [syncItemBodyWith, Bool.false_eq_true, if_false] at h
    split at h
    · simp at h
    · split at h
      · simp at h
      · rename_i htree
        split at h <;> cases h <;>
          exact upsertProductTree_skipped_unchanged _ _ _ _ _ _ _ htree
  · intro mapped sp hm hfind hhash hfresh
    simp only [syncItemBodyWith, hm, hfind]
    simp [hhash, hfresh]

/-- C6 amended witness: the second conjunct applied to the concrete
unchanged re-sync of dbC6: its ok result (computed explicitly) leaves
skipped_unchanged at zero. -/
theorem c6_short_circuit_disabled_witness :
    syncItemBody mapOne hashId 7 100 false "raw1" SyncCounts.zero dbC6
      = .ok (c6ResCounts, c6ResDB) ∧
    c6ResCounts.skipped_unchanged = SyncCounts.zero.skipped_unchanged :=
  ⟨by decide,
   (c6_short_circuit_disabled mapOne hashId 7 100 false "raw1"
      SyncCounts.zero dbC6).2.1 c6ResCounts c6ResDB (by decide)⟩

/-! ## Claim C9 -/

/-- Unrolling of sleepsFrom by one failed attempt. -/
theorem sleepsFrom_succ (a n : Nat) :
    sleepsFrom a (n + 1) = 500 * a :: sleepsFrom (a + 1) n := rfl

/-- A connection error leaves the resp local unassigned. -/
theorem lastRespOf_conn (l : Option RespInfo) (outs : List AttemptOutcome) :
    lastRespOf l (.conn :: outs) = lastRespOf l outs := rfl

/-- A received response becomes the resp local. -/
theorem lastRespOf_resp (l : Option RespInfo) (r : RespInfo)
    (outs : List AttemptOutcome) :
    lastRespOf l (.resp r :: outs) = lastRespOf (some r) outs := rfl

/-- The retry loop steps over a run of non-rate-limited failures,
advancing the attempt counter, consuming budget, tracking the last
received response, and sleeping 500·attempt after each. -/
theorem httpGetGo_skip (retries : Nat) :
    ∀ (pre rest : List AttemptOutcome) (attempt made b : Nat)
      (lastResp : Option RespInfo) (sleeps : List Nat),
      (∀ o ∈ pre, failsNonRateB o = true) →
      attempt + pre.length ≤ retries → pre.length ≤ b →
      httpGetGo retries (pre ++ rest) attempt made b lastResp sleeps =
        httpGetGo retries rest (attempt + pre.length) (made + pre.length)
          (b - pre.length) (lastRespOf lastResp pre)
          (sleeps ++ sleepsFrom attempt pre.length) := by
  intro pre
  induction pre with
  | nil =>
      intro rest attempt made b lastResp sleeps _ _ _
      simp [sleepsFrom, lastRespOf]
  | cons o pre ih =>
      intro rest attempt made b lastResp sleeps hfail hlen hb
      cases b with
      | zero => simp at hb
      | succ b =>
        have hattempt : ¬ attempt ≥ retries := by
          simp only [List.length_cons] at hlen; omega
        have ho := hfail o (List.mem_cons_self o pre)
        cases o with
        | conn =>
            simp only [List.cons_append, httpGetGo, if_neg hattempt,
              List.append_eq]
            rw [ih rest (attempt + 1) (made + 1) b lastResp
              (sleeps ++ [500 * attempt])
              (fun o ho => hfail o (List.mem_cons_of_mem _ ho))
              (by simp only [List.length_cons] at hlen; omega)
              (by simp only [List.length_cons] at hb; omega)]
            simp only [List.length_cons]
            rw [(by omega : attempt + (pre.length + 1) = attempt + 1 + pre.length),
              (by omega : made + (pre.length + 1) = made + 1 + pre.length),
              (by omega : b + 1 - (pre.length + 1) = b - pre.length),
              sleepsFrom_succ, lastRespOf_conn]
            simp
        | resp r =>
            simp only [failsNonRateB, Bool.and_eq_true, Bool.not_eq_true',
              decide_eq_true_eq] at ho
            simp only [List.cons_append, httpGetGo, ho.1, Bool.false_eq_true,
              if_false, if_pos ho.2, if_neg hattempt, List.append_eq]
            rw [ih rest (attempt + 1) (made + 1) b (some r)
              (sleeps ++ [500 * attempt])
              (fun o ho => hfail o (List.mem_cons_of_mem _ ho))
              (by simp only [List.length_cons] at hlen; omega)
              (by simp only [List.length_cons] at hb; omega)]
            simp only [List.length_cons]
            rw [(by omega : attempt + (pre.length + 1) = attempt + 1 + pre.length),
              (by omega : made + (pre.length + 1) = made + 1 + pre.length),
              (by omega : b + 1 - (pre.length + 1) = b - pre.length),
              sleepsFrom_succ, lastRespOf_resp]
            simp

/-- When every attempt up to the retry cap fails without a rate limit,
the loop raises after the final attempt, decorated with the last received
response when one exists. -/
theorem httpGetGo_allfail (retries : Nat) :
    ∀ (outs : List AttemptOutcome) (attempt made b : Nat)
      (lastResp : Option RespInfo) (sleeps : List Nat),
      (∀ o ∈ outs, failsNonRateB o = true) →
      attempt + outs.length = retries + 1 → outs.length ≤ b →
      1 ≤ outs.length →
      httpGetGo retries outs attempt made b lastResp sleeps =
        (.err (lastRespOf lastResp outs), made + outs.length,
         sleeps ++ sleepsFrom attempt (outs.length - 1)) := by
  intro outs
  induction outs with
  | nil => intro _ _ _ _ _ _ _ _ h; simp at h
  | cons o rest ih =>
      intro attempt made b lastResp sleeps hfail hlen hb _
      cases b with
      | zero => simp at hb
      | succ b =>
        have ho := hfail o (List.mem_cons_self o rest)
        cases rest with
        | nil =>
            have hattempt : attempt ≥ retries := by
              simp only [List.length_cons, List.length_nil] at hlen; omega
            cases o with
            | conn =>
                simp only [httpGetGo, if_pos hattempt]
                simp [lastRespOf, sleepsFrom]
            | resp r =>
                simp only [failsNonRateB, Bool.and_eq_true,
                  Bool.not_eq_true', decide_eq_true_eq] at ho
                simp only [httpGetGo, ho.1, Bool.false_eq_true, if_false,
                  if_pos ho.2, if_pos hattempt]
                simp [lastRespOf, sleepsFrom]
        | cons o2 rest2 =>
            have hattempt : ¬ attempt ≥ retries := by
              simp only [List.length_cons] at hlen; omega
            have hstep : ∀ o ∈ o2 :: rest2, failsNonRateB o = true :=
              fun x hx => hfail x (List.mem_cons_of_mem _ hx)
            cases o with
            | conn =>
                simp only [httpGetGo, if_neg hattempt]
                rw [ih (attempt + 1) (made + 1) b lastResp
                  (sleeps ++ [500 * attempt]) hstep
                  (by simp only [List.length_cons] at hlen ⊢; omega)
                  (by simp only [List.length_cons] at hb ⊢; omega)
                  (by simp)]
                simp only [List.length_cons]
                rw [(by omega : made + (rest2.length + 1 + 1)
                      = made + 1 + (rest2.length + 1)),
                  (by omega : rest2.length + 1 + 1 - 1 = rest2.length + 1),
                  (by omega : rest2.length + 1 - 1 = rest2.length),
                  sleepsFrom_succ, lastRespOf_conn]
                simp
            | resp r =>
                simp only [failsNonRateB, Bool.and_eq_true,
                  Bool.not_eq_true', decide_eq_true_eq] at ho
                simp only [httpGetGo, ho.1, Bool.false_eq_true, if_false,
                  if_pos ho.2, if_neg hattempt]
                rw [ih (attempt + 1) (made + 1) b (some r)
                  (sleeps ++ [500 * attempt]) hstep
                  (by simp only [List.length_cons] at hlen ⊢; omega)
                  (by simp only [List.length_cons] at hb ⊢; omega)
                  (by simp)]
                simp only [List.length_cons]
                rw [(by omega : made + (rest2.length + 1 + 1)
                      = made + 1 + (rest2.length + 1)),
                  (by omega : rest2.length + 1 + 1 - 1 = rest2.length + 1),
                  (by omega : rest2.length + 1 - 1 = rest2.length),
                  sleepsFrom_succ, lastRespOf_resp]
                simp

/-- C9 counterexample: three consecutive connection errors (the default
retry cap) surface as a bare, undecorated error: no response was ever
received, so the surfaced error embeds no response status and no body,
contradicting the claim that any non-rate-limited failure surfaces as a
decorated HTTP error embedding the response status and body/text. -/
theorem c9_conn_error_undecorated :
    httpGet 3 100 [.conn, .conn, .conn]
      = (.err none, 3, [500, 1000]) ∧
    errHasResp (httpGet 3 100 [.conn, .conn, .conn]).1 = false := by
  decide

/-- C9 amended: a response with status 429 or a vendor rate-limit code
raises the rate-limited error immediately, with no further attempt and no
backoff for it; any other failure is retried up to the configured maximum
number of attempts (default 3) with a linear backoff sleep of
0.5·attempt_number seconds (here in milliseconds) after each failed
non-final attempt; when every attempt fails the surfaced error is
decorated with the status and body of the last received response, and is
bare when no response was ever received (pure connection failures);
a success after failures returns that response. -/
theorem c9_http_retry (retries budget : Nat) (pre rest outs :
    List AttemptOutcome) (r : RespInfo) :
    DEFAULT_RETRIES = 3 ∧
    ((∀ o ∈ pre, failsNonRateB o = true) → pre.length < retries →
      pre.length < budget → isRateLimitedResp r = true →
      httpGet retries budget (pre ++ .resp r :: rest)
        = (.rateLimited, pre.length + 1, sleepsFrom 1 pre.length)) ∧
    ((∀ o ∈ pre, failsNonRateB o = true) → pre.length < retries →
      pre.length < budget → isRateLimitedResp r = false → r.status < 400 →
      httpGet retries budget (pre ++ .resp r :: rest)
        = (.ok r, pre.length + 1, sleepsFrom 1 pre.length)) ∧
    ((∀ o ∈ outs, failsNonRateB o = true) → outs.length = retries →
      retries ≤ budget → 1 ≤ retries →
      httpGet retries budget outs
        = (.err (lastRespOf none outs), retries,
           sleepsFrom 1 (retries - 1))) := by
  refine ⟨rfl, ?_, ?_, ?_⟩
  · intro hfail hlen hb hrate
    unfold httpGet
    rw [httpGetGo_skip retries pre (.resp r :: rest) 1 0 budget none []
      hfail (by omega) (by omega)]
    have hbpos : budget - pre.length = (budget - pre.length - 1) + 1 := by
      omega
    rw [hbpos]
    simp only [httpGetGo, hrate, if_true, List.nil_append, Nat.zero_add,
      Nat.add_comm]
  · intro hfail hlen hb hrate hstatus
    unfold httpGet
    rw [httpGetGo_skip retries pre (.resp r :: rest) 1 0 budget none []
      hfail (by omega) (by omega)]
    have hbpos : budget - pre.length = (budget - pre.length - 1) + 1 := by
      omega
    rw [hbpos]
    simp only [httpGetGo, hrate, Bool.false_eq_true, if_false,
      if_neg (by omega : ¬ r.status ≥ 400), List.nil_append, Nat.zero_add,
      Nat.add_comm]
  · intro hfail hlen hb hpos
    unfold httpGet
    rw [httpGetGo_allfail retries outs 1 0 budget none [] hfail
      (by omega) (by omega) (by omega)]
    rw [hlen]
    simp

/-- C9 witness: a 500 response followed by a 429 raises rate-limited on
attempt 2 after one 500 ms backoff; two failures then a 200 succeed; a
503, a connection error and a 400 exhaust the three attempts and surface
decorated with the last received response (the 400). -/
theorem c9_http_retry_witness :
    httpGet 3 10 [.resp { status := 500, jsonCode := none, bodyText := "b1" },
      .resp { status := 429, jsonCode := none, bodyText := "b2" }]
      = (.rateLimited, 2, [500]) ∧
    httpGet 3 10 [.resp { status := 503, jsonCode := none, bodyText := "b3" },
      .conn,
      .resp { status := 400, jsonCode := none, bodyText := "b4" }]
      = (.err (some { status := 400, jsonCode := none, bodyText := "b4" }), 3,
         [500, 1000]) := by
  constructor
  · have h := (c9_http_retry 3 10
      [.resp { status := 500, jsonCode := none, bodyText := "b1" }] []
      [] { status := 429, jsonCode := none, bodyText := "b2" }).2.1
      (by decide) (by decide) (by decide) (by decide)
    exact h.trans (by decide)
  · have h := (c9_http_retry 3 10 [] []
      [.resp { status := 503, jsonCode := none, bodyText := "b3" },
       .conn,
       .resp { status := 400, jsonCode := none, bodyText := "b4" }]
      { status := 0, jsonCode := none, bodyText := "" }).2.2.2
      (by decide) (by decide) (by decide) (by decide)
    exact h.trans (by decide)

/-! ## Claim C7 -/

/-- C7 counterexample: with a stored access token whose expiry is
unknown, _ensure_token returns at once reusing the token (no refresh, no
login — both POST outcomes here are failures and are never consulted),
although the token's expiry is not known to be more than 10 minutes away;
so reuse is not exactly the more-than-10-minutes-away condition the claim
states. -/
theorem c7_reuse_with_unknown_expiry :
    ensureToken credsW stNoExpiry PostOutcome.httpFail PostOutcome.httpFail 0
      = .ok (stNoExpiry, []) ∧
    ¬ claimExpiryMoreThan10mAway stNoExpiry 0 := by
  constructor
  · decide
  · rintro ⟨e, he, _⟩
    exact Option.noConfusion he

/-- C7 amended: ensure-valid-token reuses the current access token
exactly when one is held and its expiry is unknown or more than 10
minutes away; otherwise it attempts a refresh exactly when the stored
refresh token is held and its own expiry is unknown or not yet passed,
falling back to a full login when the refresh reports failure or is
unavailable (a rate-limited refresh reports success when an old access
token is held); login raises an authentication error when email or both
of api_key/password are missing, and when the response carries no usable
access token. -/
theorem c7_token_policy (creds : Creds) (st : TokenSt)
    (refreshOut loginOut : PostOutcome) (nowT : Int) (d : AuthData) :
    (tokenReusable st nowT = true ↔
      (optTruthy st.token = true ∧
        (st.tokenExpiry = none ∨ ∃ e, st.tokenExpiry = some e ∧ e > nowT + 600))) ∧
    (tokenReusable st nowT = true →
      ensureToken creds st refreshOut loginOut nowT = .ok (st, [])) ∧
    (tokenReusable st nowT = false → refreshUsable st nowT = true →
      ∀ st1 sv, refreshFn st refreshOut nowT = .ok (true, st1, sv) →
        ensureToken creds st refreshOut loginOut nowT
          = .ok (st1, [.refreshCall])) ∧
    (tokenReusable st nowT = false → refreshUsable st nowT = true →
      ∀ st1 sv, refreshFn st refreshOut nowT = .ok (false, st1, sv) →
        ensureToken creds st refreshOut loginOut nowT
          = (match loginFn creds loginOut nowT with
             | .error e => .error e
             | .ok (st2, _) => .ok (st2, [.refreshCall, .login]))) ∧
    (tokenReusable st nowT = false → refreshUsable st nowT = false →
      ensureToken creds st refreshOut loginOut nowT
        = (match loginFn creds loginOut nowT with
           | .error e => .error e
           | .ok (st2, _) => .ok (st2, [.login]))) ∧
    (optTruthy creds.email = false ∨
        (optTruthy creds.apiKey = false ∧ optTruthy creds.password = false) →
      loginFn creds loginOut nowT =
        .error (.auth
          "Missing CJ credentials: email and api_key or password required")) ∧
    (optTruthy creds.email = true →
      (optTruthy creds.apiKey = true ∨ optTruthy creds.password = true) →
      optTruthy d.access = false →
      loginFn creds (.ok d) nowT = .error (.auth "Login failed")) := by
  refine ⟨?_, ?_, ?_, ?_, ?_, ?_, ?_⟩
  · cases h : st.tokenExpiry <;>
      simp [tokenReusable, h, Option.all]
  · intro h
    simp [ensureToken, h]
  · intro h1 h2 st1 sv h3
    simp [ensureToken, h1, h2, h3]
  · intro h1 h2 st1 sv h3
    simp only [ensureToken, h1, Bool.false_eq_true, if_false, h2, if_true, h3]
  · intro h1 h2
    simp only [ensureToken, h1, h2, Bool.false_eq_true, if_false]
  · intro h
    unfold loginFn
    rw [if_pos]
    rcases h with h | ⟨h1, h2⟩
    · exact Or.inl (by simp [h])
    · exact Or.inr ⟨by simp [h1], by simp [h2]⟩
  · intro h1 h2 h3
    unfold loginFn
    rw [if_neg]
    · simp [h3]
    · rcases h2 with h2 | h2 <;> simp [h1, h2]

/-- C7 amended witness: a near-expiry token with a usable refresh token
whose refresh POST succeeds gets the refreshed token without login; and a
token with unknown expiry is reused. -/
theorem c7_token_policy_witness :
    ensureToken credsW stNoExpiry PostOutcome.httpFail PostOutcome.httpFail 0
      = .ok (stNoExpiry, []) ∧
    ensureToken credsW stNearExpiry (PostOutcome.ok authDataW)
      PostOutcome.httpFail 0
      = .ok (stRefreshedW, [.refreshCall]) := by
  constructor
  · exact (c7_token_policy credsW stNoExpiry PostOutcome.httpFail
      PostOutcome.httpFail 0 authDataW).2.1 (by decide)
  · exact (c7_token_policy credsW stNearExpiry (PostOutcome.ok authDataW)
      PostOutcome.httpFail 0 authDataW).2.2.1 (by decide) (by decide)
      stRefreshedW true (by decide)

/-! ## Claim C8 -/

/-- C8 counterexample: a rate-limited login POST raises CJAuthError (the
generic authentication failure type, message aside) and NOT the
rate-limited error condition; and a rate-limited refresh POST, with an
old access token still held, is swallowed entirely — _refresh reports
success, _ensure_token returns the stale state with no login and no
error, so the rate limit is not fatal to the run. -/
theorem c8_rate_limit_not_distinct :
    loginFn credsW PostOutcome.rateLimited 0
      = .error (.auth "Rate-limited during login") ∧
    loginFn credsW PostOutcome.rateLimited 0 ≠ .error .rateLimited ∧
    refreshFn stNearExpiry PostOutcome.rateLimited 0
      = .ok (true, stNearExpiry, false) ∧
    ensureToken credsW stNearExpiry PostOutcome.rateLimited
      PostOutcome.httpFail 0 = .ok (stNearExpiry, [.refreshCall]) := by
  decide

/-- C8 amended: a rate-limited login POST is converted to an
authentication error carrying the message Rate-limited during login,
which propagates (fatal to the run); a rate-limited refresh POST is
swallowed: _refresh reports success exactly when an old access token is
held — in which case the run silently continues with the stale token and
no login — and otherwise reports failure so that ensure-token falls
through to a full login. -/
theorem c8_rate_limit_handling (creds : Creds) (st : TokenSt)
    (loginOut : PostOutcome) (nowT : Int) :
    (optTruthy creds.email = true →
      (optTruthy creds.apiKey = true ∨ optTruthy creds.password = true) →
      loginFn creds PostOutcome.rateLimited nowT
        = .error (.auth "Rate-limited during login")) ∧
    (optTruthy st.refreshToken = true →
      refreshFn st PostOutcome.rateLimited nowT
        = .ok (optTruthy st.token, st, false)) ∧
    (tokenReusable st nowT = false → refreshUsable st nowT = true →
      optTruthy st.token = true →
      ensureToken creds st PostOutcome.rateLimited loginOut nowT
        = .ok (st, [.refreshCall])) ∧
    (tokenReusable st nowT = false → refreshUsable st nowT = true →
      optTruthy st.token = false →
      ensureToken creds st PostOutcome.rateLimited loginOut nowT
        = (match loginFn creds loginOut nowT with
           | .error e => .error e
           | .ok (st2, _) => .ok (st2, [.refreshCall, .login]))) := by
  refine ⟨?_, ?_, ?_, ?_⟩
  · intro h1 h2
    unfold loginFn
    rw [if_neg]
    rcases h2 with h2 | h2 <;> simp [h1, h2]
  · intro h
    simp [refreshFn, h]
  · intro h1 h2 h3
    have hr : refreshFn st PostOutcome.rateLimited nowT
        = .ok (true, st, false) := by
      have hrt : optTruthy st.refreshToken = true := by
        have h4 := h2
        simp only [refreshUsable, Bool.and_eq_true] at h4
        exact h4.1
      simp [refreshFn, hrt, h3]
    simp [ensureToken, h1, h2, hr]
  · intro h1 h2 h3
    have hrt : optTruthy st.refreshToken = true := by
      have h4 := h2
      simp only [refreshUsable, Bool.and_eq_true] at h4
      exact h4.1
    have hr : refreshFn st PostOutcome.rateLimited nowT
        = .ok (false, st, false) := by
      simp [refreshFn, hrt, h3]
    simp only [ensureToken, h1, Bool.false_eq_true, if_false, h2, if_true, hr]

/-- C8 amended witness: the conversion and the swallow at the concrete
credentials and near-expiry state. -/
theorem c8_rate_limit_handling_witness :
    loginFn credsW PostOutcome.rateLimited 5
      = .error (.auth "Rate-limited during login") ∧
    ensureToken credsW stNearExpiry PostOutcome.rateLimited
      PostOutcome.httpFail 5 = .ok (stNearExpiry, [.refreshCall]) := by
  constructor
  · exact (c8_rate_limit_handling credsW stNearExpiry PostOutcome.httpFail
      5).1 (by decide) (by decide)
  · exact (c8_rate_limit_handling credsW stNearExpiry PostOutcome.httpFail
      5).2.2.1 (by decide) (by decide) (by decide)

/-! ## Frame lemmas for the importer store operations -/

/-- Category get_or_create touches only the categories store (and the id
counter). -/
theorem getOrCreateCategory_frame (db : DB) (name : String)
    (res : Option Nat × DB) (h : getOrCreateCategory db name = .ok res) :
    res.2.variants = db.variants ∧ res.2.products = db.products ∧
    res.2.inventories = db.inventories ∧ res.2.media = db.media ∧
    res.2.links = db.links ∧ res.2.subcategories = db.subcategories := by
  unfold getOrCreateCategory at h
  split at h
  · cases h; exact ⟨rfl, rfl, rfl, rfl, rfl, rfl⟩
  · split at h
    · cases h; exact ⟨rfl, rfl, rfl, rfl, rfl, rfl⟩
    · cases h; exact ⟨rfl, rfl, rfl, rfl, rfl, rfl⟩
    · simp at h

/-- Subcategory get_or_create touches only the subcategories store (and
the id counter). -/
theorem getOrCreateSubcategory_frame (db : DB) (cat : Option Nat)
    (name : String) (res : Option Nat × DB)
    (h : getOrCreateSubcategory db cat name = .ok res) :
    res.2.variants = db.variants ∧ res.2.products = db.products ∧
    res.2.inventories = db.inventories ∧ res.2.media = db.media ∧
    res.2.links = db.links ∧ res.2.categories = db.categories := by
  unfold getOrCreateSubcategory at h
  split at h
  · cases h; exact ⟨rfl, rfl, rfl, rfl, rfl, rfl⟩
  · split at h
    · cases h; exact ⟨rfl, rfl, rfl, rfl, rfl, rfl⟩
    · split at h
      · cases h; exact ⟨rfl, rfl, rfl, rfl, rfl, rfl⟩
      · cases h; exact ⟨rfl, rfl, rfl, rfl, rfl, rfl⟩
      · simp at h

/-- The media loop only appends media rows (and advances the id counter):
all other stores are untouched. -/
theorem mediaLoop_frame (vid pidP : Nat) (alt : String)
    (existing : List String) :
    ∀ (urls : List JScalar) (idx : Nat) (hasMedia : Bool) (created : Nat)
      (db : DB),
      (mediaLoop vid pidP alt existing urls idx hasMedia created db).1.variants
          = db.variants ∧
      (mediaLoop vid pidP alt existing urls idx hasMedia created db).1.products
          = db.products ∧
      (mediaLoop vid pidP alt existing urls idx hasMedia created
          db).1.inventories = db.inventories ∧
      (mediaLoop vid pidP alt existing urls idx hasMedia created db).1.links
          = db.links ∧
      (mediaLoop vid pidP alt existing urls idx hasMedia created
          db).1.categories = db.categories ∧
      (mediaLoop vid pidP alt existing urls idx hasMedia created
          db).1.subcategories = db.subcategories ∧
      ∃ newM, (mediaLoop vid pidP alt existing urls idx hasMedia created
          db).1.media = db.media ++ newM := by
  intro urls
  induction urls with
  | nil =>
      intro idx hasMedia created db
      exact ⟨rfl, rfl, rfl, rfl, rfl, rfl, [], by simp [mediaLoop]⟩
  | cons u rest ih =>
      intro idx hasMedia created db
      simp only [mediaLoop]
      split
      · exact ih (idx + 1) hasMedia created db
      · obtain ⟨h1, h2, h3, h4, h5, h6, newM, h7⟩ :=
          ih (idx + 1) true (created + 1)
            { db with
              nextId := db.nextId + 1
              media := db.media ++
                [⟨db.nextId, some pidP, some vid, "external", pyStrScalar u,
                  alt, (¬ hasMedia ∧ created = 0 ∧ idx = 0 : Bool),
                  if (¬ hasMedia ∧ created = 0 ∧ idx = 0 : Bool) then 0
                  else 1⟩] }
        refine ⟨h1.trans rfl, h2.trans rfl, h3.trans rfl, h4.trans rfl,
          h5.trans rfl, h6.trans rfl, ?_⟩
        exact ⟨_, by rw [h7, List.append_assoc]⟩

/-- mediaStep leaves every store but media untouched. -/
theorem mediaStep_frame (nr : NRow) (variant : VariantR) (db : DB) :
    (mediaStep nr variant db).1.variants = db.variants ∧
    (mediaStep nr variant db).1.products = db.products ∧
    (mediaStep nr variant db).1.inventories = db.inventories ∧
    (mediaStep nr variant db).1.links = db.links ∧
    (mediaStep nr variant db).1.categories = db.categories ∧
    (mediaStep nr variant db).1.subcategories = db.subcategories ∧
    ∃ newM, (mediaStep nr variant db).1.media = db.media ++ newM := by
  unfold mediaStep
  dsimp only
  by_cases hc : List.filter truthyScalar nr.media_urls ≠ []
  · simp only [if_pos hc]
    exact mediaLoop_frame _ _ _ _ _ _ _ _ _
  · simp only [if_neg hc]
    refine ⟨?_, ?_, ?_, ?_, ?_, ?_, ?_⟩ <;>
      first
        | trivial
        | exact ⟨[], by simp⟩

/-- The update path of upsertBranch: with an existing variant row for the
SKU, the touched variant keeps its id, no creation is reported, and the
inventories / media / links stores are untouched. -/
theorem upsertBranch_update (nr : NRow) (pb : Rat) (cur : String)
    (cat subcat : Option Nat) (cache : PCache) (db : DB) (v : VariantR)
    (hv : db.variants.find? (fun w => w.sku = nr.sku) = some v)
    (db2 : DB) (cache2 : PCache) (variant : VariantR) (pc vc : Bool)
    (h : upsertBranch nr pb cur cat subcat cache db
      = .ok (db2, cache2, variant, pc, vc)) :
    variant.id = v.id ∧ pc = false ∧ vc = false ∧
    db2.inventories = db.inventories ∧ db2.media = db.media ∧
    db2.links = db.links ∧ db2.categories = db.categories ∧
    db2.subcategories = db.subcategories := by
  unfold upsertBranch at h
  rw [hv] at h
  dsimp only at h
  split at h
  · simp at h
  · cases h
    exact ⟨rfl, rfl, rfl, rfl, rfl, rfl, rfl, rfl⟩

/-- Replacing the matching inventory row makes the row found for that
variant the replacement. -/
theorem find_replace_inventory (vid : Nat) (invNew : InventoryR)
    (hvid : invNew.variantId = vid) :
    ∀ (l : List InventoryR) (inv : InventoryR),
      l.find? (fun i => i.variantId = vid) = some inv →
      (l.map (fun i => if i.variantId = invNew.variantId then invNew else i)).find?
          (fun i => i.variantId = vid) = some invNew := by
  intro l
  induction l with
  | nil => intro inv h; simp at h
  | cons a t ih =>
      intro inv h
      by_cases ha : a.variantId = vid
      · simp [ha, hvid]
      · have ht : t.find? (fun i => i.variantId = vid) = some inv := by
          simpa [List.find?_cons, ha] using h
        simp only [List.map_cons, hvid, if_neg ha, List.find?_cons,
          decide_eq_false ha]
        have := ih inv ht
        simpa [hvid] using this

/-- After saveInventory of a row for a variant that already has an
inventory row, the lookup for that variant yields the saved row. -/
theorem find_saveInventory (db : DB) (inv invNew : InventoryR) (vid : Nat)
    (hfound : db.inventories.find? (fun i => i.variantId = vid) = some inv)
    (hvid : invNew.variantId = vid) :
    (db.saveInventory invNew).inventories.find? (fun i => i.variantId = vid)
      = some invNew := by
  unfold DB.saveInventory
  have hany : db.inventories.any (fun i => i.variantId = invNew.variantId)
      = true := by
    rw [hvid]
    refine List.any_eq_true.mpr ⟨inv, List.mem_of_find?_eq_some hfound, ?_⟩
    have := List.find?_some hfound
    simpa using this
  rw [if_pos hany]
  exact find_replace_inventory vid invNew hvid db.inventories inv hfound

/-- The inventory section with a present integer quantity: the resulting
row for the variant holds max(0, Q) under set and max(0, prev + Q) under
increment, whatever the safety-stock and warehouse branches do. -/
theorem inventoryStep_qty (nr : NRow) (vid : Nat) (db : DB)
    (inv : InventoryR) (Q : Int)
    (hfind : db.inventories.find? (fun i => i.variantId = vid) = some inv)
    (hivd : inv.variantId = vid)
    (hq : pyInt nr.qty_available = some Q)
    (hqp : jPresent nr.qty_available = true)
    (db2 : DB) (act : String)
    (h : inventoryStep nr vid db = .ok (db2, act)) :
    ∃ inv2,
      db2.inventories.find? (fun i => i.variantId = vid) = some inv2 ∧
      inv2.qty_available =
        (if nr.stock_mode = "increment"
         then ((inv.qty_available : Int) + Q).toNat else Q.toNat) := by
  unfold inventoryStep at h
  rw [if_pos (Or.inl hqp), hfind] at h
  dsimp only at h
  rw [if_pos hqp, hq] at h
  dsimp only at h
  by_cases hm : nr.stock_mode = "increment"
  · rw [if_pos hm] at h
    rw [if_pos hm]
    dsimp only at h
    split at h
    · simp at h
    · rename_i invF heq
      simp only [Except.ok.injEq, Prod.mk.injEq] at h
      obtain ⟨hdb, -⟩ := h
      subst hdb
      split at heq
      · split at heq
        · simp at heq
        · cases heq
          exact ⟨_, find_saveInventory db inv _ vid hfind
            (by split <;> simpa using hivd), by split <;> rfl⟩
      · cases heq
        exact ⟨_, find_saveInventory db inv _ vid hfind
          (by split <;> simpa using hivd), by split <;> rfl⟩
  · rw [if_neg hm] at h
    rw [if_neg hm]
    dsimp only at h
    split at h
    · simp at h
    · rename_i invF heq
      simp only [Except.ok.injEq, Prod.mk.injEq] at h
      obtain ⟨hdb, -⟩ := h
      subst hdb
      split at heq
      · split at heq
        · simp at heq
        · cases heq
          exact ⟨_, find_saveInventory db inv _ vid hfind
            (by split <;> simpa using hivd), by split <;> rfl⟩
      · cases heq
        exact ⟨_, find_saveInventory db inv _ vid hfind
          (by split <;> simpa using hivd), by split <;> rfl⟩

/-! ## Claim C4 -/

/-- C4: for every committed row whose SKU already exists and that carries
an integer qty_available Q, the resulting Inventory quantity is
max(0, Q) under stock_mode set (independent of the prior value P) and
max(0, P + Q) under stock_mode increment. -/
theorem c4_stock_mode_semantics (nr : NRow) (cache : PCache) (db : DB)
    (v : VariantR) (inv : InventoryR) (Q : Int)
    (hv : db.variants.find? (fun w => w.sku = nr.sku) = some v)
    (hinv : db.inventories.find? (fun i => i.variantId = v.id) = some inv)
    (hq : pyInt nr.qty_available = some Q)
    (hqp : jPresent nr.qty_available = true)
    (db2 : DB) (cache2 : PCache) (out : UpOut)
    (h : upsertOne nr cache db = .ok (db2, cache2, out)) :
    (nr.stock_mode = "set" →
      ∃ inv2, db2.inventories.find? (fun i => i.variantId = v.id) = some inv2 ∧
        (inv2.qty_available : Int) = max 0 Q) ∧
    (nr.stock_mode = "increment" →
      ∃ inv2, db2.inventories.find? (fun i => i.variantId = v.id) = some inv2 ∧
        (inv2.qty_available : Int) = max 0 ((inv.qty_available : Int) + Q)) := by
  unfold upsertOne at h
  -- price parse must have succeeded
  rcases hp : pyDecimal nr.price with _ | pb
  · rw [hp] at h; simp at h
  rw [hp] at h
  dsimp only at h
  -- category / subcategory steps succeeded and do not touch the stores
  rcases hcat : getOrCreateCategory db nr.category_name with e | ⟨cat, dbc⟩
  · rw [hcat] at h; simp at h
  rw [hcat] at h
  dsimp only at h
  obtain ⟨hcv, hcp, hci, hcm, hcl, hcs⟩ := getOrCreateCategory_frame _ _ _ hcat
  rcases hsub : getOrCreateSubcategory dbc cat nr.subcategory_name with e | ⟨subcat, dbs⟩
  · rw [hsub] at h; simp at h
  rw [hsub] at h
  dsimp only at h
  obtain ⟨hsv, hsp, hsi, hsm, hsl, hsc⟩ := getOrCreateSubcategory_frame _ _ _ _ hsub
  -- the branch takes the update path on the existing SKU
  have hvs : dbs.variants.find? (fun w => w.sku = nr.sku) = some v := by
    rw [hsv, hcv]; exact hv
  rcases hbr : upsertBranch nr pb
      (if VALID_CURRENCIES.contains (pyUpper nr.currency)
       then pyUpper nr.currency else "USD") cat subcat cache dbs
    with e | ⟨dbb, cacheb, variant, pc, vc⟩
  · rw [hbr] at h; simp at h
  rw [hbr] at h
  dsimp only at h
  obtain ⟨hbid, _, _, hbi, _, _, _, _⟩ := upsertBranch_update _ _ _ _ _ _ _ _
    hvs _ _ _ _ _ hbr
  -- the inventory section runs (qty present) on the untouched inventories
  have hii : dbb.inventories.find? (fun i => i.variantId = v.id) = some inv := by
    rw [hbi, hsi, hci]; exact hinv
  have hivd : inv.variantId = v.id := by
    have := List.find?_some hii
    simpa using this
  rcases hstep : inventoryStep nr variant.id dbb with e | ⟨dbi, act⟩
  · rw [hstep] at h; simp at h
  rw [hstep] at h
  dsimp only at h
  -- the final media step does not touch inventories
  rcases hms : mediaStep nr variant dbi with ⟨dbm, mc⟩
  rw [hms] at h
  dsimp only at h
  simp only [Except.ok.injEq, Prod.mk.injEq] at h
  obtain ⟨hdb2, -, -⟩ := h
  have hmi : dbm.inventories = dbi.inventories := by
    have := (mediaStep_frame nr variant dbi).2.2.1
    rw [hms] at this
    exact this
  -- apply the inventory-section lemma at the variant's id
  have hii2 : dbb.inventories.find? (fun i => i.variantId = variant.id)
      = some inv := by
    rw [hbid]; exact hii
  obtain ⟨inv2, hfind2, hqty⟩ := inventoryStep_qty nr variant.id dbb inv Q
    hii2 (by rw [hbid]; exact hivd) hq hqp dbi act hstep
  rw [← hdb2]
  constructor
  · intro hmode
    refine ⟨inv2, ?_, ?_⟩
    · rw [hmi, ← hbid]; exact hfind2
    · rw [if_neg (by rw [hmode]; decide)] at hqty
      rw [hqty]; omega
  · intro hmode
    refine ⟨inv2, ?_, ?_⟩
    · rw [hmi, ← hbid]; exact hfind2
    · rw [if_pos hmode] at hqty
      rw [hqty]; omega

/-- C4 witness: committing rawInvSet (qty 20, set) into dbW makes the
quantity max(0,20)=20 regardless of the prior 7; committing rawInvInc
(qty 5, increment) makes it max(0, 7+5)=12. -/
theorem c4_stock_mode_semantics_witness :
    (∃ inv2, c4SetDB.inventories.find? (fun i => i.variantId = vW.id)
        = some inv2 ∧ (inv2.qty_available : Int) = max 0 20) ∧
    (∃ inv2, c4IncDB.inventories.find? (fun i => i.variantId = vW.id)
        = some inv2 ∧
      (inv2.qty_available : Int) = max 0 ((invW.qty_available : Int) + 5)) := by
  constructor
  · exact (c4_stock_mode_semantics (normalizeRow rawInvSet) [] dbW vW invW 20
      (by decide) (by decide) (by decide) (by decide) c4SetDB []
      ⟨false, false, 0, "set"⟩ (by decide)).1 (by decide)
  · exact (c4_stock_mode_semantics (normalizeRow rawInvInc) [] dbW vW invW 5
      (by decide) (by decide) (by decide) (by decide) c4IncDB []
      ⟨false, false, 0, "increment"⟩ (by decide)).2 (by decide)

/-! ## Claim C10 -/

/-- update_or_create on the SupplierProduct link touches only the links
store: variants, inventories, media, products and taxonomy pass through. -/
theorem linkUpsert_frame (accountId : Nat) (nowT : Int) (ext : String)
    (raw : RawItem) (vid : Nat) (db : DB) :
    (linkUpsert accountId nowT ext raw vid db).variants = db.variants ∧
    (linkUpsert accountId nowT ext raw vid db).inventories = db.inventories ∧
    (linkUpsert accountId nowT ext raw vid db).media = db.media ∧
    (linkUpsert accountId nowT ext raw vid db).products = db.products ∧
    (linkUpsert accountId nowT ext raw vid db).categories = db.categories ∧
    (linkUpsert accountId nowT ext raw vid db).subcategories
      = db.subcategories := by
  unfold linkUpsert
  split <;> exact ⟨rfl, rfl, rfl, rfl, rfl, rfl⟩

/-- A link row not keyed (provider_account, external_id) survives
update_or_create unchanged. -/
theorem linkUpsert_keep (accountId : Nat) (nowT : Int) (ext : String)
    (raw : RawItem) (vid : Nat) (db : DB) (l : SupplierProductR)
    (hl : l ∈ db.links)
    (hnm : ¬(l.accountId = accountId ∧ l.external_id = ext)) :
    l ∈ (linkUpsert accountId nowT ext raw vid db).links := by
  unfold linkUpsert
  split
  · exact List.mem_map.mpr ⟨l, hl, if_neg hnm⟩
  · exact List.mem_append_left _ hl

/-- After update_or_create, a link row keyed (provider_account, external_id)
exists, points at the given variant, and carries last_synced_at = now. -/
theorem linkUpsert_fresh (accountId : Nat) (nowT : Int) (ext : String)
    (raw : RawItem) (vid : Nat) (db : DB) :
    ∃ l ∈ (linkUpsert accountId nowT ext raw vid db).links,
      l.accountId = accountId ∧ l.external_id = ext ∧
      l.variantId = vid ∧ l.last_synced_at = nowT := by
  unfold linkUpsert
  split
  · rename_i hany
    obtain ⟨l₀, hl₀, hp⟩ := List.any_eq_true.mp hany
    have hp' := of_decide_eq_true hp
    exact ⟨_, List.mem_map.mpr ⟨l₀, hl₀, if_pos hp'⟩, hp'.1, hp'.2, rfl, rfl⟩
  · exact ⟨_, List.mem_append_right _ (List.mem_singleton.mpr rfl),
      rfl, rfl, rfl, rfl⟩

/-- The variant loop never modifies existing catalog rows: variants are
only appended (get_or_create applies defaults only on creation),
inventories / media / products / taxonomy are untouched, links not keyed
(provider_account, external_id) survive unchanged, and whenever the loop
reports a last variant id the keyed link row exists pointing at that
variant with last_synced_at stamped to now. -/
theorem variantLoop_frame (accountId : Nat) (nowT : Int) (dryRun : Bool)
    (ext : String) (raw : RawItem) (pid : Option Nat) :
    ∀ (vs : List MappedVariant) (counts : SyncCounts) (db : DB)
      (lastVar : Option Nat) (out : DB × SyncCounts × Option Nat),
    variantLoop accountId nowT dryRun ext raw pid vs counts db lastVar
      = .ok out →
    (∀ vid, lastVar = some vid →
      ∃ l ∈ db.links, l.accountId = accountId ∧ l.external_id = ext ∧
        l.variantId = vid ∧ l.last_synced_at = nowT) →
    (∃ newVars, out.1.variants = db.variants ++ newVars) ∧
    out.1.inventories = db.inventories ∧
    out.1.media = db.media ∧
    out.1.products = db.products ∧
    out.1.categories = db.categories ∧
    out.1.subcategories = db.subcategories ∧
    (∀ l ∈ db.links,
      ¬(l.accountId = accountId ∧ l.external_id = ext) → l ∈ out.1.links) ∧
    (∀ vid, out.2.2 = some vid →
      ∃ l ∈ out.1.links, l.accountId = accountId ∧ l.external_id = ext ∧
        l.variantId = vid ∧ l.last_synced_at = nowT) := by
  intro vs
  induction vs with
  | nil =>
      intro counts db lastVar out h hInv
      cases h
      exact ⟨⟨[], by simp⟩, rfl, rfl, rfl, rfl, rfl, fun l hl _ => hl, hInv⟩
  | cons v rest ih =>
      intro counts db lastVar out h hInv
      simp only [variantLoop] at h
      split at h
      · exact ih _ _ _ _ h hInv
      · split at h
        · exact ih _ _ _ _ h hInv
        · split at h
          · simp at h
          · rename_i pidV
            split at h
            · rename_i w hfind
              obtain ⟨⟨nv, hnv⟩, hi, hm, hp, hc, hs, hkeep, hlast⟩ :=
                ih _ _ _ _ h (fun vid hvid => by
                  obtain rfl := Option.some.inj hvid
                  exact linkUpsert_fresh accountId nowT ext raw w.id db)
              refine ⟨⟨nv, ?_⟩, ?_, ?_, ?_, ?_, ?_, ?_, hlast⟩
              · rw [hnv,
                  (linkUpsert_frame accountId nowT ext raw w.id db).1]
              · rw [hi,
                  (linkUpsert_frame accountId nowT ext raw w.id db).2.1]
              · rw [hm,
                  (linkUpsert_frame accountId nowT ext raw w.id db).2.2.1]
              · rw [hp,
                  (linkUpsert_frame accountId nowT ext raw w.id db).2.2.2.1]
              · rw [hc,
                  (linkUpsert_frame accountId nowT ext raw w.id db).2.2.2.2.1]
              · rw [hs,
                  (linkUpsert_frame accountId nowT ext raw w.id db).2.2.2.2.2]
              · intro l hl hnm
                exact hkeep l
                  (linkUpsert_keep accountId nowT ext raw w.id db l hl hnm) hnm
            · rename_i hfind
              obtain ⟨⟨nv, hnv⟩, hi, hm, hp, hc, hs, hkeep, hlast⟩ :=
                ih _ _ _ _ h (fun vid hvid => by
                  obtain rfl := Option.some.inj hvid
                  exact linkUpsert_fresh accountId nowT ext raw _ _)
              refine ⟨⟨(⟨db.nextId, pidV, pyStrip v.sku, v.attributes,
                  v.price, normCurrency v.currency, some v.weight, v.dims,
                  v.is_active⟩ : VariantR) :: nv, ?_⟩,
                ?_, ?_, ?_, ?_, ?_, ?_, hlast⟩
              · rw [hnv, (linkUpsert_frame _ _ _ _ _ _).1]
                simp
              · rw [hi, (linkUpsert_frame _ _ _ _ _ _).2.1]
              · rw [hm, (linkUpsert_frame _ _ _ _ _ _).2.2.1]
              · rw [hp, (linkUpsert_frame _ _ _ _ _ _).2.2.2.1]
              · rw [hc, (linkUpsert_frame _ _ _ _ _ _).2.2.2.2.1]
              · rw [hs, (linkUpsert_frame _ _ _ _ _ _).2.2.2.2.2]
              · intro l hl hnm
                exact hkeep l
                  (linkUpsert_keep _ _ _ _ _ _ l hl hnm) hnm

/-- A single mapped variant whose stripped SKU is nonblank and already
present in the store is resolved by get, not create: the loop reports the
existing row's id as the last variant. -/
theorem variantLoop_single_existing (accountId : Nat) (nowT : Int)
    (ext : String) (raw : RawItem) (pid : Nat) (v : MappedVariant)
    (w : VariantR) (counts : SyncCounts) (db : DB) (lastVar : Option Nat)
    (out : DB × SyncCounts × Option Nat)
    (h : variantLoop accountId nowT false ext raw (some pid) [v] counts db
      lastVar = .ok out)
    (hsku : ¬(pyStrip v.sku = ""))
    (hfind : db.variants.find? (fun q => q.sku = pyStrip v.sku) = some w) :
    out.2.2 = some w.id := by
  simp only [variantLoop] at h
  rw [if_neg hsku, if_neg Bool.false_ne_true] at h
  rw [hfind] at h
  dsimp only at h
  rw [← Except.ok.inj h]

/-- C10: for every non-dry sync upsert of a mapped item, existing catalog
rows survive verbatim: the variant store is only appended to, so a mapped
variant whose SKU already exists keeps its product, price_base, currency,
attributes, weight, dims and is_active (get_or_create applies defaults
only on creation); inventories, media and taxonomy are untouched and the
product store is only appended to; SupplierProduct link rows not keyed
(provider_account, external_id) survive unchanged; the reported last
variant id always has the keyed link row pointing at it with
last_synced_at stamped to now; and for a single mapped variant with a
nonblank SKU already in the store, that reported id is the pre-existing
variant row's. -/
theorem c10_sync_upsert_frame (mapped : Mapped) (accountId : Nat)
    (nowT : Int) (counts : SyncCounts) (db : DB)
    (out : DB × SyncCounts × Option Nat × Option Nat)
    (h : upsertProductTree mapped accountId nowT false counts db = .ok out) :
    (∃ newVars, out.1.variants = db.variants ++ newVars) ∧
    out.1.inventories = db.inventories ∧
    out.1.media = db.media ∧
    (∃ newProds, out.1.products = db.products ++ newProds) ∧
    out.1.categories = db.categories ∧
    out.1.subcategories = db.subcategories ∧
    (∀ l ∈ db.links,
      ¬(l.accountId = accountId ∧ l.external_id = mapped.external_id) →
      l ∈ out.1.links) ∧
    (∀ vid, out.2.2.2 = some vid →
      ∃ l ∈ out.1.links, l.accountId = accountId ∧
        l.external_id = mapped.external_id ∧
        l.variantId = vid ∧ l.last_synced_at = nowT) ∧
    (∀ v w, mapped.variants = [v] → ¬(pyStrip v.sku = "") →
      db.variants.find? (fun q => q.sku = pyStrip v.sku) = some w →
      out.2.2.2 = some w.id) := by
  simp only [upsertProductTree, Bool.false_eq_true, if_false] at h
  split at h
  · simp at h
  · rename_i pid counts1 db1 heq
    have hdb1 : db1.variants = db.variants ∧
        db1.inventories = db.inventories ∧ db1.media = db.media ∧
        (∃ np, db1.products = db.products ++ np) ∧
        db1.categories = db.categories ∧
        db1.subcategories = db.subcategories ∧ db1.links = db.links := by
      split at heq
      · cases heq
        exact ⟨rfl, rfl, rfl, ⟨_, rfl⟩, rfl, rfl, rfl⟩
      · cases heq
        exact ⟨rfl, rfl, rfl, ⟨[], by simp⟩, rfl, rfl, rfl⟩
      · simp at heq
    have hpid : ∃ p, pid = some p := by
      split at heq
      · cases heq; exact ⟨_, rfl⟩
      · cases heq; exact ⟨_, rfl⟩
      · simp at heq
    obtain ⟨p, rfl⟩ := hpid
    split at h
    · simp at h
    · rename_i db2 counts2 lastVar hloop
      obtain rfl := Except.ok.inj h
      obtain ⟨⟨nv, hnv⟩, hi, hm, hp, hc, hs, hkeep, hlast⟩ :=
        variantLoop_frame accountId nowT false mapped.external_id mapped.raw
          (some p) mapped.variants counts1 db1 none _ hloop
          (fun vid hvid => nomatch hvid)
      obtain ⟨np, hnp⟩ := hdb1.2.2.2.1
      dsimp only at hnv hi hm hp hc hs hlast ⊢
      refine ⟨⟨nv, ?_⟩, ?_, ?_, ⟨np, ?_⟩, ?_, ?_, ?_, hlast, ?_⟩
      · rw [hnv, hdb1.1]
      · rw [hi, hdb1.2.1]
      · rw [hm, hdb1.2.2.1]
      · rw [hp, hnp]
      · rw [hc, hdb1.2.2.2.2.1]
      · rw [hs, hdb1.2.2.2.2.2.1]
      · intro l hl hnm
        exact hkeep l (by rw [hdb1.2.2.2.2.2.2]; exact hl) hnm
      · intro v w hvs hsku hfind
        exact variantLoop_single_existing accountId nowT mapped.external_id
          mapped.raw p v w counts1 db1 none _
          (by rw [← hvs]; exact hloop) hsku
          (by rw [hdb1.1]; exact hfind)

/-- C10 witness: upserting mappedW into dbW for account 7 at time 100
computes c10Out, whose stores extend dbW without modifying any existing
row and whose single link row points at the reported last variant with a
fresh stamp. -/
theorem c10_sync_upsert_frame_witness :
    (∃ newVars, c10Out.1.variants = dbW.variants ++ newVars) ∧
    c10Out.1.inventories = dbW.inventories ∧
    c10Out.1.media = dbW.media ∧
    (∃ newProds, c10Out.1.products = dbW.products ++ newProds) ∧
    c10Out.1.categories = dbW.categories ∧
    c10Out.1.subcategories = dbW.subcategories ∧
    (∀ l ∈ dbW.links,
      ¬(l.accountId = 7 ∧ l.external_id = mappedW.external_id) →
      l ∈ c10Out.1.links) ∧
    (∀ vid, c10Out.2.2.2 = some vid →
      ∃ l ∈ c10Out.1.links, l.accountId = 7 ∧
        l.external_id = mappedW.external_id ∧
        l.variantId = vid ∧ l.last_synced_at = 100) ∧
    (∀ v w, mappedW.variants = [v] → ¬(pyStrip v.sku = "") →
      dbW.variants.find? (fun q => q.sku = pyStrip v.sku) = some w →
      c10Out.2.2.2 = some w.id) :=
  c10_sync_upsert_frame mappedW 7 100 SyncCounts.zero dbW c10Out (by decide)

/-! ## Claim C5 -/

/-- A find? hit in a prefix survives appending. -/
theorem find_append_some {α : Type} (p : α → Bool) (t : List α) :
    ∀ (l : List α) (x : α), l.find? p = some x → (l ++ t).find? p = some x := by
  intro l
  induction l with
  | nil => intro x h; simp at h
  | cons a r ih =>
      intro x h
      by_cases hpa : p a = true
      · simp only [List.find?_cons, hpa] at h
        simp only [List.cons_append, List.find?_cons, hpa]
        exact h
      · rw [List.find?_cons_of_neg _ (by simpa using hpa)] at h
        rw [List.cons_append, List.find?_cons_of_neg _ (by simpa using hpa)]
        exact ih x h

/-- A find? miss in a prefix defers to the appended tail. -/
theorem find_append_none {α : Type} (p : α → Bool) (t : List α) :
    ∀ (l : List α), l.find? p = none → (l ++ t).find? p = t.find? p := by
  intro l
  induction l with
  | nil => intro h; rfl
  | cons a r ih =>
      intro h
      by_cases hpa : p a = true
      · rw [List.find?_cons_of_pos _ hpa] at h
        simp at h
      · rw [List.find?_cons_of_neg _ (by simpa using hpa)] at h
        rw [List.cons_append, List.find?_cons_of_neg _ (by simpa using hpa)]
        exact ih h

/-- In a store with pairwise-distinct variant ids, members sharing an id
coincide. -/
theorem variant_id_unique :
    ∀ (l : List VariantR), l.Pairwise (fun a b => a.id ≠ b.id) →
    ∀ x ∈ l, ∀ y ∈ l, x.id = y.id → x = y := by
  intro l
  induction l with
  | nil => intro _ x hx; simp at hx
  | cons a r ih =>
      intro hp x hx y hy hxy
      rw [List.pairwise_cons] at hp
      rcases List.mem_cons.mp hx with hxa | hxr
      · rcases List.mem_cons.mp hy with hya | hyr
        · rw [hxa, hya]
        · subst hxa
          exact absurd hxy (hp.1 y hyr)
      · rcases List.mem_cons.mp hy with hya | hyr
        · subst hya
          exact absurd hxy.symm (hp.1 x hxr)
        · exact ih hp.2 x hxr y hyr hxy

/-- A filter over a list whose pairwise relation excludes two hits has at
most one hit. -/
theorem filter_length_le_one {α : Type} (p : α → Bool) (R : α → α → Prop)
    (hcompat : ∀ a b, p a = true → p b = true → R a b → False) :
    ∀ (l : List α), l.Pairwise R → (l.filter p).length ≤ 1 := by
  intro l
  induction l with
  | nil => intro _; simp
  | cons a r ih =>
      intro hp
      rw [List.pairwise_cons] at hp
      by_cases hpa : p a = true
      · have hnil : r.filter p = [] := by
          rw [List.filter_eq_nil]
          intro b hb hpb
          exact hcompat a b hpa hpb (hp.1 b hb)
        simp [hpa, hnil]
      · simpa [List.filter_cons, hpa] using ih hp.2

/-- With a member hit and the pairwise exclusion, the filter has exactly
one hit. -/
theorem filter_length_eq_one {α : Type} (p : α → Bool) (R : α → α → Prop)
    (hcompat : ∀ a b, p a = true → p b = true → R a b → False)
    (l : List α) (hp : l.Pairwise R) (x : α) (hx : x ∈ l)
    (hpx : p x = true) : (l.filter p).length = 1 := by
  have hle := filter_length_le_one p R hcompat l hp
  have hmem : x ∈ l.filter p := List.mem_filter.mpr ⟨hx, hpx⟩
  have hpos : 0 < (l.filter p).length := List.length_pos.mpr
    (List.ne_nil_of_mem hmem)
  omega

/-- A row that passes validation has a parseable price and parseable
integer quantities wherever those cells are present. -/
theorem valid_parts (nr : NRow) (h : validateRow nr = []) :
    (pyDecimal nr.price).isSome = true ∧
    (jPresent nr.qty_available = true → (pyInt nr.qty_available).isSome = true) ∧
    (jPresent nr.safety_stock = true → (pyInt nr.safety_stock).isSome = true) := by
  simp only [validateRow, List.append_eq_nil] at h
  obtain ⟨⟨⟨⟨⟨hreq, hp⟩, hc⟩, hq⟩, hs⟩, hm⟩ := h
  refine ⟨?_, ?_, ?_⟩
  · rcases hpd : pyDecimal nr.price with _ | q
    · rw [hpd] at hp
      simp at hp
    · rfl
  · intro hqa
    rcases hqv : pyInt nr.qty_available with _ | z
    · rw [hqa, hqv] at hq
      simp at hq
    · rfl
  · intro hsa
    rcases hsv : pyInt nr.safety_stock with _ | z
    · rw [hsa, hsv] at hs
      simp at hs
    · rfl

/-- With upsert enabled the classifier never answers skip (and never
error: errors are assigned by the preview, not the classifier). -/
theorem classify_upsert_kinds (db : DB) (nr : NRow) :
    classifyAction db nr true ≠ "error" ∧ classifyAction db nr true ≠ "skip" := by
  unfold classifyAction
  dsimp only
  split_ifs with h1 h2
  · exact ⟨by decide, by decide⟩
  · exact absurd h2.2 (by simp)
  · exact ⟨by decide, by decide⟩

/-- For a payload of rows that all validate, each full-preview row is the
normalization of one uploaded row, carries no errors, and is classified by
the existence probe. -/
theorem previewRowsFull_facts (db : DB) (rowsRaw : List RawRow) (up : Bool)
    (hvalid : ∀ raw ∈ rowsRaw, validateRow (normalizeRow raw) = []) :
    ∀ r ∈ previewRowsFull db rowsRaw up [],
      (∃ raw ∈ rowsRaw, r.row = normalizeRow raw) ∧
      r.action = classifyAction db r.row up ∧ validateRow r.row = [] := by
  intro r hm
  unfold previewRowsFull at hm
  rw [List.mem_map] at hm
  obtain ⟨raw, hraw, heq⟩ := hm
  dsimp only at heq
  rw [if_neg (by simp : ¬(([] : List (String × String)) ≠ []))] at heq
  have hv := hvalid raw hraw
  rw [if_pos hv] at heq
  subst heq
  exact ⟨⟨raw, hraw, rfl⟩, rfl, hv⟩

/-- With at most 500 uploaded rows, the page-1/per-500 preview that commit
replays contains every row of the file. -/
theorem preview_rows_all (db : DB) (rowsRaw : List RawRow) (up : Bool)
    (hlen : rowsRaw.length ≤ 500) :
    (parseFileToPreview db rowsRaw up [] 1 500).rows
      = previewRowsFull db rowsRaw up [] := by
  unfold parseFileToPreview
  dsimp only
  norm_num
  simpa [previewRowsFull] using hlen

/-- Category get_or_create cannot fail over a name-unique store, preserves
both taxonomy uniqueness invariants, and never lowers the id counter. -/
theorem getOrCreateCategory_ok (db : DB) (name : String)
    (hcat : db.categories.Pairwise (fun a b => a.name ≠ b.name)) :
    ∃ res, getOrCreateCategory db name = .ok res ∧
      res.2.categories.Pairwise (fun a b => a.name ≠ b.name) ∧
      db.nextId ≤ res.2.nextId := by
  unfold getOrCreateCategory
  by_cases hn : name = ""
  · exact ⟨_, by rw [if_pos hn], hcat, le_refl _⟩
  · rw [if_neg hn]
    rcases hf : db.categories.filter (fun c => c.name = name) with _ | ⟨c, tl⟩
    · rw [hf]
      refine ⟨_, rfl, ?_, Nat.le_succ _⟩
      refine List.pairwise_append.mpr ⟨hcat, List.pairwise_singleton _ _, ?_⟩
      intro a ha b hb
      rw [List.mem_singleton] at hb
      subst hb
      intro hab
      have : a ∈ db.categories.filter (fun c => c.name = name) :=
        List.mem_filter.mpr ⟨ha, by simpa using hab⟩
      rw [hf] at this
      simp at this
    · rcases tl with _ | ⟨c2, tl2⟩
      · rw [hf]
        exact ⟨_, rfl, hcat, le_refl _⟩
      · exfalso
        have hle := filter_length_le_one (fun c => c.name = name)
          (fun a b => a.name ≠ b.name)
          (fun a b hpa hpb hR => hR (by
            have ha := of_decide_eq_true hpa
            have hb := of_decide_eq_true hpb
            rw [ha, hb])) db.categories hcat
        rw [hf] at hle
        simp at hle

/-- Subcategory get_or_create cannot fail over a pair-unique store,
preserves the uniqueness invariant, and never lowers the id counter. -/
theorem getOrCreateSubcategory_ok (db : DB) (cat : Option Nat) (name : String)
    (hsub : db.subcategories.Pairwise
      (fun a b => ¬(a.categoryId = b.categoryId ∧ a.name = b.name))) :
    ∃ res, getOrCreateSubcategory db cat name = .ok res ∧
      res.2.subcategories.Pairwise
        (fun a b => ¬(a.categoryId = b.categoryId ∧ a.name = b.name)) ∧
      db.nextId ≤ res.2.nextId := by
  unfold getOrCreateSubcategory
  rcases cat with _ | catId
  · exact ⟨_, rfl, hsub, le_refl _⟩
  · dsimp only
    by_cases hn : name = ""
    · exact ⟨_, by rw [if_pos hn], hsub, le_refl _⟩
    · rw [if_neg hn]
      rcases hf : db.subcategories.filter
          (fun s => s.categoryId = catId ∧ s.name = name) with _ | ⟨c, tl⟩
      · rw [hf]
        refine ⟨_, rfl, ?_, Nat.le_succ _⟩
        refine List.pairwise_append.mpr ⟨hsub, List.pairwise_singleton _ _, ?_⟩
        intro a ha b hb
        rw [List.mem_singleton] at hb
        subst hb
        intro hab
        have : a ∈ db.subcategories.filter
            (fun s => s.categoryId = catId ∧ s.name = name) :=
          List.mem_filter.mpr ⟨ha, by simpa using hab⟩
        rw [hf] at this
        simp at this
      · rcases tl with _ | ⟨c2, tl2⟩
        · rw [hf]
          exact ⟨_, rfl, hsub, le_refl _⟩
        · exfalso
          have hle := filter_length_le_one
            (fun s => s.categoryId = catId ∧ s.name = name)
            (fun a b => ¬(a.categoryId = b.categoryId ∧ a.name = b.name))
            (fun a b hpa hpb hR => hR (by
              have ha := of_decide_eq_true hpa
              have hb := of_decide_eq_true hpb
              exact ⟨ha.1.trans hb.1.symm, ha.2.trans hb.2.symm⟩))
            db.subcategories hsub
          rw [hf] at hle
          simp at hle

/-- The inventory section never fails when the validator guarantees the
present integer cells parse, and it touches only the inventories store. -/
theorem inventoryStep_ok (nr : NRow) (vid : Nat) (db : DB)
    (hq : jPresent nr.qty_available = true → (pyInt nr.qty_available).isSome = true)
    (hs : jPresent nr.safety_stock = true → (pyInt nr.safety_stock).isSome = true) :
    ∃ res, inventoryStep nr vid db = .ok res ∧
      res.1.variants = db.variants ∧ res.1.products = db.products ∧
      res.1.media = db.media ∧ res.1.categories = db.categories ∧
      res.1.subcategories = db.subcategories ∧ res.1.nextId = db.nextId := by
  unfold inventoryStep
  by_cases houter : (jPresent nr.qty_available ∨ jPresent nr.safety_stock
      ∨ pyTruthy nr.warehouse)
  · rw [if_pos houter]
    dsimp only
    by_cases hqa : jPresent nr.qty_available = true
    · obtain ⟨q, hqv⟩ := Option.isSome_iff_exists.mp (hq hqa)
      rw [if_pos hqa, hqv]
      dsimp only
      by_cases hmode : nr.stock_mode = "increment"
      · rw [if_pos hmode]
        dsimp only
        by_cases hsa : jPresent nr.safety_stock = true
        · obtain ⟨s, hsv⟩ := Option.isSome_iff_exists.mp (hs hsa)
          rw [if_pos hsa, hsv]
          dsimp only
          split <;>
            exact ⟨_, rfl, by unfold DB.saveInventory; split <;>
                exact ⟨rfl, rfl, rfl, rfl, rfl, rfl⟩⟩
        · rw [if_neg hsa]
          dsimp only
          split <;>
            exact ⟨_, rfl, by unfold DB.saveInventory; split <;>
                exact ⟨rfl, rfl, rfl, rfl, rfl, rfl⟩⟩
      · rw [if_neg hmode]
        dsimp only
        by_cases hsa : jPresent nr.safety_stock = true
        · obtain ⟨s, hsv⟩ := Option.isSome_iff_exists.mp (hs hsa)
          rw [if_pos hsa, hsv]
          dsimp only
          split <;>
            exact ⟨_, rfl, by unfold DB.saveInventory; split <;>
                exact ⟨rfl, rfl, rfl, rfl, rfl, rfl⟩⟩
        · rw [if_neg hsa]
          dsimp only
          split <;>
            exact ⟨_, rfl, by unfold DB.saveInventory; split <;>
                exact ⟨rfl, rfl, rfl, rfl, rfl, rfl⟩⟩
    · rw [if_neg hqa]
      dsimp only
      by_cases hsa : jPresent nr.safety_stock = true
      · obtain ⟨s, hsv⟩ := Option.isSome_iff_exists.mp (hs hsa)
        rw [if_pos hsa, hsv]
        dsimp only
        split <;>
          exact ⟨_, rfl, by unfold DB.saveInventory; split <;>
            exact ⟨rfl, rfl, rfl, rfl, rfl, rfl⟩⟩
      · rw [if_neg hsa]
        dsimp only
        split <;>
          exact ⟨_, rfl, by unfold DB.saveInventory; split <;>
            exact ⟨rfl, rfl, rfl, rfl, rfl, rfl⟩⟩
  · rw [if_neg houter]
    exact ⟨_, rfl, rfl, rfl, rfl, rfl, rfl, rfl⟩

/-- Every truthy media cell processed by the media loop ends attached (its
string form appears on a media row of the variant), whether it was skipped
as already existing or freshly created. -/
theorem mediaLoop_cover (vid pidP : Nat) (alt : String)
    (existing : List String) :
    ∀ (urls : List JScalar) (idx : Nat) (hasMedia : Bool) (created : Nat)
      (db : DB),
    (∀ s ∈ existing, ∃ m ∈ db.media, m.variantId = some vid ∧
      m.kind = "external" ∧ m.url = s) →
    ∀ u ∈ urls,
      ∃ m ∈ (mediaLoop vid pidP alt existing urls idx hasMedia
        created db).1.media, m.variantId = some vid ∧ m.kind = "external" ∧
        m.url = pyStrScalar u := by
  intro urls
  induction urls with
  | nil => intro idx hasMedia created db hex u hu; simp at hu
  | cons u0 rest ih =>
      intro idx hasMedia created db hex u hu
      simp only [mediaLoop]
      split
      · rename_i hin
        rcases List.mem_cons.mp hu with rfl | hur
        · rcases u with _ | s | q | b <;> simp at hin
          obtain ⟨m, hm, h1, h2, h3⟩ := hex s (by simpa using hin)
          obtain ⟨nm, hnm⟩ := (mediaLoop_frame vid pidP alt existing rest
            (idx + 1) hasMedia created db).2.2.2.2.2.2
          exact ⟨m, by rw [hnm]; exact List.mem_append_left _ hm, h1, h2,
            h3.trans rfl⟩
        · exact ih (idx + 1) hasMedia created db hex u hur
      · rename_i hnin
        rcases List.mem_cons.mp hu with rfl | hur
        · obtain ⟨nm, hnm⟩ := (mediaLoop_frame vid pidP alt existing rest
            (idx + 1) true (created + 1)
            { db with
              nextId := db.nextId + 1
              media := db.media ++
                [⟨db.nextId, some pidP, some vid, "external", pyStrScalar u,
                  alt, (¬ hasMedia ∧ created = 0 ∧ idx = 0 : Bool),
                  if (¬ hasMedia ∧ created = 0 ∧ idx = 0 : Bool) then 0
                  else 1⟩] }).2.2.2.2.2.2
          refine ⟨⟨db.nextId, some pidP, some vid, "external", pyStrScalar u,
            alt, (¬ hasMedia ∧ created = 0 ∧ idx = 0 : Bool),
            if (¬ hasMedia ∧ created = 0 ∧ idx = 0 : Bool) then 0 else 1⟩,
            ?_, rfl, rfl, rfl⟩
          rw [hnm]
          exact List.mem_append_left _
            (List.mem_append_right _ (List.mem_singleton.mpr rfl))
        · refine ih (idx + 1) true (created + 1) _ ?_ u hur
          intro s hs
          obtain ⟨m, hm, h1, h2, h3⟩ := hex s hs
          exact ⟨m, List.mem_append_left _ hm, h1, h2, h3⟩

/-- When every cell is a string already attached, the media loop is a
no-op. -/
theorem mediaLoop_skip (vid pidP : Nat) (alt : String)
    (existing : List String) :
    ∀ (urls : List JScalar) (idx : Nat) (hasMedia : Bool) (created : Nat)
      (db : DB),
    (∀ u ∈ urls, ∃ s, u = JScalar.str s ∧ s ∈ existing) →
    mediaLoop vid pidP alt existing urls idx hasMedia created db
      = (db, created) := by
  intro urls
  induction urls with
  | nil => intro idx hasMedia created db _; rfl
  | cons u0 rest ih =>
      intro idx hasMedia created db hall
      obtain ⟨s, rfl, hsex⟩ := hall u0 (List.mem_cons_self _ _)
      simp only [mediaLoop]
      rw [if_pos (by simpa using hsex)]
      exact ih (idx + 1) hasMedia created db
        (fun u hu => hall u (List.mem_cons_of_mem _ hu))

/-- A row created by the media loop and marked main can only arise when
the variant had no media at entry. -/
theorem mediaLoop_main (vid pidP : Nat) (alt : String)
    (existing : List String) :
    ∀ (urls : List JScalar) (idx : Nat) (hasMedia : Bool) (created : Nat)
      (db : DB) (m : MediaR),
    m ∈ (mediaLoop vid pidP alt existing urls idx hasMedia
      created db).1.media →
    m ∉ db.media → m.is_main = true → hasMedia = false := by
  intro urls
  induction urls with
  | nil =>
      intro idx hasMedia created db m hm hnew _
      exact absurd hm hnew
  | cons u0 rest ih =>
      intro idx hasMedia created db m hm hnew hmain
      simp only [mediaLoop] at hm
      split at hm
      · exact ih (idx + 1) hasMedia created db m hm hnew hmain
      · by_cases hm' : m ∈
            ({ db with
              nextId := db.nextId + 1
              media := db.media ++
                [⟨db.nextId, some pidP, some vid, "external", pyStrScalar u0,
                  alt, (¬ hasMedia ∧ created = 0 ∧ idx = 0 : Bool),
                  if (¬ hasMedia ∧ created = 0 ∧ idx = 0 : Bool) then 0
                  else 1⟩] } : DB).media
        · rcases List.mem_append.mp hm' with hold | hnewm
          · exact absurd hold hnew
          · rw [List.mem_singleton] at hnewm
            subst hnewm
            have := of_decide_eq_true hmain
            cases hasMedia
            · rfl
            · exact absurd (by simp) this.1.elim
        · have := ih (idx + 1) true (created + 1) _ m hm hm' hmain
          simp at this

/-- After the media section, the string form of every truthy media cell of
the row is attached to the touched variant as external media. -/
theorem mediaStep_cover (nr : NRow) (variant : VariantR) (db : DB) :
    ∀ u ∈ nr.media_urls.filter truthyScalar,
      ∃ m ∈ (mediaStep nr variant db).1.media,
        m.variantId = some variant.id ∧ m.kind = "external" ∧
        m.url = pyStrScalar u := by
  intro u hu
  unfold mediaStep
  dsimp only
  rw [if_pos (List.ne_nil_of_mem hu)]
  refine mediaLoop_cover variant.id variant.productId
    (strTake nr.title 255) _ _ 0
    (db.media.any (fun m => m.variantId = some variant.id)) 0 db ?_ u hu
  intro s hs
  rw [List.mem_map] at hs
  obtain ⟨m, hmf, hurl⟩ := hs
  rw [List.mem_filter] at hmf
  have hc := of_decide_eq_true hmf.2
  exact ⟨m, hmf.1, hc.1, hc.2, hurl⟩

/-- When every truthy media cell is a string already attached to the
variant, the media section is a no-op. -/
theorem mediaStep_skip (nr : NRow) (variant : VariantR) (db : DB)
    (hcov : ∀ u ∈ nr.media_urls.filter truthyScalar,
      ∃ s, u = JScalar.str s ∧ ∃ m ∈ db.media,
        m.variantId = some variant.id ∧ m.kind = "external" ∧ m.url = s) :
    mediaStep nr variant db = (db, 0) := by
  unfold mediaStep
  dsimp only
  by_cases hc : nr.media_urls.filter truthyScalar ≠ []
  · rw [if_pos hc]
    apply mediaLoop_skip
    intro u hu
    obtain ⟨s, rfl, m, hm, h1, h2, h3⟩ := hcov u hu
    refine ⟨s, rfl, ?_⟩
    rw [List.mem_map]
    exact ⟨m, List.mem_filter.mpr ⟨hm, by simp [h1, h2]⟩, h3⟩
  · rw [if_neg hc]

/-- A media row freshly created by the media section and marked main can
only arise when the variant had no media at all beforehand. -/
theorem mediaStep_main (nr : NRow) (variant : VariantR) (db : DB)
    (m : MediaR) (hm : m ∈ (mediaStep nr variant db).1.media)
    (hnew : m ∉ db.media) (hmain : m.is_main = true) :
    ∀ m0 ∈ db.media, m0.variantId ≠ some variant.id := by
  unfold mediaStep at hm
  dsimp only at hm
  by_cases hc : nr.media_urls.filter truthyScalar ≠ []
  · rw [if_pos hc] at hm
    have hfalse := mediaLoop_main variant.id variant.productId
      (strTake nr.title 255) _ _ 0 _ 0 db m hm hnew hmain
    intro m0 hm0 hvid
    have : db.media.any (fun m => m.variantId = some variant.id) = true :=
      List.any_eq_true.mpr ⟨m0, hm0, by simpa using hvid⟩
    rw [this] at hfalse
    simp at hfalse
  · rw [if_neg hc] at hm
    exact absurd hm hnew

/-- Replacing a variant row by one that keeps its id and SKU leaves the
(id, sku) skeleton of an id-unique variant list unchanged. -/
theorem variants_map_skuIds (l : List VariantR) (v variant2 : VariantR)
    (hid : l.Pairwise (fun a b => a.id ≠ b.id)) (hvmem : v ∈ l)
    (hids : variant2.id = v.id) (hsku : variant2.sku = v.sku) :
    (l.map (fun w => if w.id = v.id then variant2 else w)).map
        (fun w => (w.id, w.sku))
      = l.map (fun w => (w.id, w.sku)) := by
  rw [List.map_map]
  apply List.map_congr_left
  intro w hw
  dsimp only [Function.comp]
  by_cases hw2 : w.id = v.id
  · rw [if_pos hw2]
    have hwv : w = v := variant_id_unique l hid w hw v hvmem hw2
    rw [hids, hsku, hwv]
  · rw [if_neg hw2]

/-- The update path of the branch step: with an existing variant row for
the SKU and a product row behind it, the step succeeds reporting no
creation, rewrites only that variant and its product in place (ids, SKUs,
store skeleton, product count all preserved), and extends the cache only
with the updated product. -/
theorem upsertBranch_update_full (nr : NRow) (pb : Rat) (cur : String)
    (cat subcat : Option Nat) (cache : PCache) (db : DB) (v : VariantR)
    (hv : db.variants.find? (fun w => w.sku = nr.sku) = some v)
    (hvp : ∃ p ∈ db.products, p.id = v.productId)
    (hid : db.variants.Pairwise (fun a b => a.id ≠ b.id)) :
    ∃ db2 cache2 variant,
      upsertBranch nr pb cur cat subcat cache db
        = .ok (db2, cache2, variant, false, false) ∧
      variant.id = v.id ∧
      skuIds db2 = skuIds db ∧
      db2.nextId = db.nextId ∧
      db2.products.length = db.products.length ∧
      (∀ j, (∃ p ∈ db.products, p.id = j) → ∃ p ∈ db2.products, p.id = j) ∧
      (∀ w ∈ db2.variants, ∃ w0 ∈ db.variants, w.productId = w0.productId) ∧
      (∀ e ∈ cache2, e ∈ cache ∨ e.2 = v.productId) ∧
      db2.inventories = db.inventories ∧ db2.media = db.media ∧
      db2.categories = db.categories ∧
      db2.subcategories = db.subcategories := by
  obtain ⟨p, hp, hpj⟩ := hvp
  have hp0 : ∃ p0, db.products.find? (fun q => q.id = v.productId)
      = some p0 := by
    refine Option.isSome_iff_exists.mp (List.find?_isSome.mpr
      ⟨p, hp, by simpa using hpj⟩)
  obtain ⟨p0, hfp⟩ := hp0
  have hp0id : p0.id = v.productId := by
    simpa using List.find?_some hfp
  have hvmem : v ∈ db.variants := List.mem_of_find?_eq_some hv
  unfold upsertBranch
  rw [hv]
  dsimp only
  rw [hfp]
  dsimp only
  refine ⟨_, _, _, rfl, rfl, ?_, rfl, ?_, ?_, ?_, ?_, rfl, rfl, rfl, rfl⟩
  · simp only [DB.saveProduct, DB.saveVariant, skuIds]
    refine variants_map_skuIds db.variants v ?_ hid hvmem ?_ ?_
    · rfl
    · rfl
  · simp [DB.saveVariant, DB.saveProduct]
  · intro j hj
    obtain ⟨q, hq, hqj⟩ := hj
    simp only [DB.saveVariant, DB.saveProduct]
    refine ⟨_, List.mem_map_of_mem _ hq, ?_⟩
    dsimp only
    split
    · rename_i hcond
      rw [← hcond]
      exact hqj
    · exact hqj
  · intro w hw
    simp only [DB.saveVariant, DB.saveProduct, List.mem_map] at hw
    obtain ⟨w0, hw0, heq⟩ := hw
    subst heq
    dsimp only
    split
    · exact ⟨v, hvmem, rfl⟩
    · exact ⟨w0, hw0, rfl⟩
  · intro e he
    split at he
    · rcases List.mem_append.mp he with hold | hnew
      · exact Or.inl hold
      · rw [List.mem_singleton] at hnew
        subst hnew
        exact Or.inr hp0id
    · exact Or.inl he

/-- The create path of the branch step: with no variant row for the SKU
and a parseable weight cell, the step succeeds reporting variant creation,
appends exactly one variant (with the row's SKU and a fresh id) and at
most one product, and keeps the cache pointing into the product store. -/
theorem upsertBranch_create_full (nr : NRow) (pb : Rat) (cur : String)
    (cat subcat : Option Nat) (cache : PCache) (db : DB)
    (hv : db.variants.find? (fun w => w.sku = nr.sku) = none)
    (hw : jPresent nr.weight = true → (pyDecimal nr.weight).isSome = true)
    (hcache : ∀ e ∈ cache, ∃ p ∈ db.products, p.id = e.2) :
    ∃ db2 cache2 variant pc,
      upsertBranch nr pb cur cat subcat cache db
        = .ok (db2, cache2, variant, pc, true) ∧
      variant.sku = nr.sku ∧
      db.nextId ≤ variant.id ∧
      variant.id < db2.nextId ∧
      db.nextId ≤ db2.nextId ∧
      db2.variants = db.variants ++ [variant] ∧
      (∃ np, db2.products = db.products ++ np) ∧
      (∃ p ∈ db2.products, p.id = variant.productId) ∧
      (∀ e ∈ cache2, ∃ p ∈ db2.products, p.id = e.2) ∧
      db2.inventories = db.inventories ∧ db2.media = db.media ∧
      db2.categories = db.categories ∧
      db2.subcategories = db.subcategories := by
  unfold upsertBranch
  rw [hv]
  dsimp only
  rcases hk : (if pyStrip nr.product_key ≠ "" then
      cache.find? (fun e => e.1 = pyStrip nr.product_key) else none)
    with _ | e
  · rw [hk]
    dsimp only
    by_cases hjw : jPresent nr.weight = true
    · obtain ⟨wv, hwv⟩ := Option.isSome_iff_exists.mp (hw hjw)
      rw [if_pos hjw, hwv]
      dsimp only
      refine ⟨_, _, _, _, rfl, rfl, Nat.le_succ _, Nat.lt_succ_self _,
        Nat.le_succ_of_le (Nat.le_succ _), rfl, ⟨_, rfl⟩, ?_, ?_, rfl, rfl,
        rfl, rfl⟩
      · exact ⟨_, List.mem_append_right _ (List.mem_singleton.mpr rfl), rfl⟩
      · intro e2 he2
        split at he2
        · rcases List.mem_append.mp he2 with hold | hnew
          · obtain ⟨p, hp, hpj⟩ := hcache e2 hold
            exact ⟨p, List.mem_append_left _ hp, hpj⟩
          · rw [List.mem_singleton] at hnew
            subst hnew
            exact ⟨_, List.mem_append_right _ (List.mem_singleton.mpr rfl),
              rfl⟩
        · obtain ⟨p, hp, hpj⟩ := hcache e2 he2
          exact ⟨p, List.mem_append_left _ hp, hpj⟩
    · rw [if_neg hjw]
      dsimp only
      refine ⟨_, _, _, _, rfl, rfl, Nat.le_succ _, Nat.lt_succ_self _,
        Nat.le_succ_of_le (Nat.le_succ _), rfl, ⟨_, rfl⟩, ?_, ?_, rfl, rfl,
        rfl, rfl⟩
      · exact ⟨_, List.mem_append_right _ (List.mem_singleton.mpr rfl), rfl⟩
      · intro e2 he2
        split at he2
        · rcases List.mem_append.mp he2 with hold | hnew
          · obtain ⟨p, hp, hpj⟩ := hcache e2 hold
            exact ⟨p, List.mem_append_left _ hp, hpj⟩
          · rw [List.mem_singleton] at hnew
            subst hnew
            exact ⟨_, List.mem_append_right _ (List.mem_singleton.mpr rfl),
              rfl⟩
        · obtain ⟨p, hp, hpj⟩ := hcache e2 he2
          exact ⟨p, List.mem_append_left _ hp, hpj⟩
  · rw [hk]
    dsimp only
    have he : e ∈ cache := by
      by_cases hkey : pyStrip nr.product_key ≠ ""
      · rw [if_pos hkey] at hk
        exact List.mem_of_find?_eq_some hk
      · rw [if_neg hkey] at hk
        simp at hk
    by_cases hjw : jPresent nr.weight = true
    · obtain ⟨wv, hwv⟩ := Option.isSome_iff_exists.mp (hw hjw)
      rw [if_pos hjw, hwv]
      dsimp only
      refine ⟨_, _, _, _, rfl, rfl, le_refl _, Nat.lt_succ_self _,
        Nat.le_succ _, rfl, ⟨[], by simp⟩, hcache e he, hcache, rfl, rfl,
        rfl, rfl⟩
    · rw [if_neg hjw]
      dsimp only
      refine ⟨_, _, _, _, rfl, rfl, le_refl _, Nat.lt_succ_self _,
        Nat.le_succ _, rfl, ⟨[], by simp⟩, hcache e he, hcache, rfl, rfl,
        rfl, rfl⟩

/-- A hit on the (id, sku) skeleton names a variant row found by SKU. -/
theorem rowCovered_find (nr : NRow) (db : DB) (i : Nat)
    (hf : (skuIds db).find? (fun e => e.2 = nr.sku) = some (i, nr.sku)) :
    ∃ v, db.variants.find? (fun w => w.sku = nr.sku) = some v ∧ v.id = i := by
  unfold skuIds at hf
  rw [List.find?_map] at hf
  rcases hfv : db.variants.find?
      ((fun e => decide (e.2 = nr.sku)) ∘ (fun v => (v.id, v.sku)))
    with _ | v
  · rw [hfv] at hf
    exact absurd hf (by simp)
  · rw [hfv] at hf
    have hf2 : some (v.id, v.sku) = some (i, nr.sku) := hf
    exact ⟨v, hfv, congrArg Prod.fst (Option.some.inj hf2)⟩

/-- A SKU hit on the variant store is a hit on the skeleton. -/
theorem skuIds_find_of_find (nr : NRow) (db : DB) (v : VariantR)
    (hv : db.variants.find? (fun w => w.sku = nr.sku) = some v) :
    (skuIds db).find? (fun e => e.2 = nr.sku) = some (v.id, nr.sku) := by
  unfold skuIds
  rw [List.find?_map]
  have hvsku : v.sku = nr.sku := by simpa using List.find?_some hv
  have hv2 : db.variants.find? ((fun (e : Nat × String) =>
      decide (e.2 = nr.sku)) ∘ (fun v => (v.id, v.sku))) = some v := hv
  rw [hv2, ← hvsku]
  rfl

/-- A SKU miss on the variant store is a miss on the skeleton. -/
theorem skuIds_find_none (nr : NRow) (db : DB)
    (hv : db.variants.find? (fun w => w.sku = nr.sku) = none) :
    (skuIds db).find? (fun e => e.2 = nr.sku) = none := by
  unfold skuIds
  rw [List.find?_map]
  have hv2 : db.variants.find? ((fun (e : Nat × String) =>
      decide (e.2 = nr.sku)) ∘ (fun v => (v.id, v.sku))) = none := hv
  rw [hv2]
  rfl

/-- SKU distinctness transfers along an equal skeleton. -/
theorem pairwise_sku_of_skuIds (dbX dbY : DB) (h : skuIds dbX = skuIds dbY)
    (hp : dbY.variants.Pairwise (fun a b => a.sku ≠ b.sku)) :
    dbX.variants.Pairwise (fun a b => a.sku ≠ b.sku) := by
  have h1 : (skuIds dbY).Pairwise (fun x y => x.2 ≠ y.2) := by
    rw [skuIds, List.pairwise_map]
    exact hp
  rw [← h, skuIds, List.pairwise_map] at h1
  exact h1

/-- Id distinctness transfers along an equal skeleton. -/
theorem pairwise_id_of_skuIds (dbX dbY : DB) (h : skuIds dbX = skuIds dbY)
    (hp : dbY.variants.Pairwise (fun a b => a.id ≠ b.id)) :
    dbX.variants.Pairwise (fun a b => a.id ≠ b.id) := by
  have h1 : (skuIds dbY).Pairwise (fun x y => x.1 ≠ y.1) := by
    rw [skuIds, List.pairwise_map]
    exact hp
  rw [← h, skuIds, List.pairwise_map] at h1
  exact h1

/-- An id bound transfers along an equal skeleton. -/
theorem ids_bound_of_skuIds (dbX dbY : DB) (n : Nat)
    (h : skuIds dbX = skuIds dbY) (hb : ∀ w ∈ dbY.variants, w.id < n) :
    ∀ w ∈ dbX.variants, w.id < n := by
  intro w hw
  have hmem : (w.id, w.sku) ∈ skuIds dbY := by
    rw [← h, skuIds]
    exact List.mem_map_of_mem _ hw
  rw [skuIds, List.mem_map] at hmem
  obtain ⟨w2, hw2, heq⟩ := hmem
  have : w2.id = w.id := congrArg Prod.fst heq
  rw [← this]
  exact hb w2 hw2

/-- The media loop never lowers the id counter. -/
theorem mediaLoop_nextId (vid pidP : Nat) (alt : String)
    (existing : List String) :
    ∀ (urls : List JScalar) (idx : Nat) (hasMedia : Bool) (created : Nat)
      (db : DB) (n : Nat), n ≤ db.nextId →
    n ≤ (mediaLoop vid pidP alt existing urls idx hasMedia
      created db).1.nextId := by
  intro urls
  induction urls with
  | nil => intro idx hasMedia created db n h; exact h
  | cons u rest ih =>
      intro idx hasMedia created db n h
      simp only [mediaLoop]
      split
      · exact ih (idx + 1) hasMedia created db n h
      · refine ih (idx + 1) true (created + 1) _ n ?_
        exact h.trans (Nat.le_succ _)

/-- The media section never lowers the id counter. -/
theorem mediaStep_nextId (nr : NRow) (variant : VariantR) (db : DB) :
    db.nextId ≤ (mediaStep nr variant db).1.nextId := by
  unfold mediaStep
  dsimp only
  split
  · apply mediaLoop_nextId
    exact le_refl _
  · exact le_refl _

/-- One committed row over a well-formed store cannot fail: it preserves
well-formedness, only appends to the variant skeleton and the media store,
never lowers the id counter, and leaves the row covered. -/
theorem upsertOne_step (nr : NRow) (cache : PCache) (db : DB)
    (hWF : ImportWF db cache)
    (hvalid : validateRow nr = [])
    (hw : jPresent nr.weight = true → (pyDecimal nr.weight).isSome = true) :
    ∃ db2 cache2 out, upsertOne nr cache db = .ok (db2, cache2, out) ∧
      ImportWF db2 cache2 ∧
      (∃ tail, skuIds db2 = skuIds db ++ tail) ∧
      (∃ mm, db2.media = db.media ++ mm) ∧
      db.nextId ≤ db2.nextId ∧
      rowCovered nr db2 := by
  obtain ⟨hcat, hsub, hsku, hid, hbound, hvarProd, hcacheProd⟩ := hWF
  obtain ⟨hpr, hq, hs⟩ := valid_parts nr hvalid
  obtain ⟨pb, hpb⟩ := Option.isSome_iff_exists.mp hpr
  unfold upsertOne
  rw [hpb]
  dsimp only
  obtain ⟨⟨cat, dbA⟩, hA, hcatA, hnA⟩ :=
    getOrCreateCategory_ok db nr.category_name hcat
  have hfrA := getOrCreateCategory_frame db nr.category_name _ hA
  rw [hA]
  dsimp only
  obtain ⟨⟨subcat, dbB⟩, hB, hsubB, hnB⟩ :=
    getOrCreateSubcategory_ok dbA cat nr.subcategory_name
      (by rw [hfrA.2.2.2.2.2]; exact hsub)
  have hfrB := getOrCreateSubcategory_frame dbA cat nr.subcategory_name _ hB
  rw [hB]
  dsimp only
  have hBvar : dbB.variants = db.variants := hfrB.1.trans hfrA.1
  have hBprod : dbB.products = db.products := hfrB.2.1.trans hfrA.2.1
  have hBinv : dbB.inventories = db.inventories :=
    hfrB.2.2.1.trans hfrA.2.2.1
  have hBmed : dbB.media = db.media := hfrB.2.2.2.1.trans hfrA.2.2.2.1
  have hBcat : dbB.categories = dbA.categories := hfrB.2.2.2.2.2
  have hBnext : db.nextId ≤ dbB.nextId := hnA.trans hnB
  rcases hv : dbB.variants.find? (fun w => w.sku = nr.sku) with _ | v
  · -- CREATE path
    obtain ⟨dbC, cacheC, variant, pc, hC, hsku2, hle1, hlt, hle2, hvars,
        ⟨np, hnp⟩, hvp, hcacheC, hinvC, hmedC, hcatC, hsubC⟩ :=
      upsertBranch_create_full nr pb
        (if VALID_CURRENCIES.contains (pyUpper nr.currency) then
          pyUpper nr.currency else "USD") cat subcat cache dbB hv hw
        (by rw [hBprod]; exact hcacheProd)
    rw [hC]
    dsimp only
    obtain ⟨⟨dbD, act⟩, hD, hDvar, hDprod, hDmed, hDcat, hDsub, hDnext⟩ :=
      inventoryStep_ok nr variant.id dbC hq hs
    rw [hD]
    dsimp only
    dsimp only at hDvar hDprod hDmed hDcat hDsub hDnext
    rcases hE : mediaStep nr variant dbD with ⟨dbE, mc⟩
    dsimp only
    have hfrE := mediaStep_frame nr variant dbD
    rw [hE] at hfrE
    dsimp only at hfrE
    obtain ⟨hEvar, hEprod, hEinv, hElink, hEcat, hEsub, mmE, hEmed⟩ := hfrE
    have hEnext : dbD.nextId ≤ dbE.nextId := by
      have h0 := mediaStep_nextId nr variant dbD
      rw [hE] at h0
      exact h0
    have hvarsE : dbE.variants = db.variants ++ [variant] := by
      rw [hEvar, hDvar, hvars, hBvar]
    have hprodE : dbE.products = db.products ++ np := by
      rw [hEprod, hDprod, hnp, hBprod]
    have hnextE : db.nextId ≤ dbE.nextId := by omega
    refine ⟨dbE, cacheC, _, rfl, ?_, ?_, ?_, hnextE, ?_⟩
    · refine ⟨?_, ?_, ?_, ?_, ?_, ?_, ?_⟩
      · rw [hEcat, hDcat, hcatC, hBcat]
        exact hcatA
      · rw [hEsub, hDsub, hsubC]
        exact hsubB
      · rw [hvarsE]
        refine List.pairwise_append.mpr
          ⟨hsku, List.pairwise_singleton _ _, ?_⟩
        intro a ha b hb
        rw [List.mem_singleton] at hb
        rw [hb, hsku2]
        intro hab
        have hnone := List.find?_eq_none.mp (by rw [← hBvar]; exact hv) a ha
        exact hnone (by simpa using hab)
      · rw [hvarsE]
        refine List.pairwise_append.mpr
          ⟨hid, List.pairwise_singleton _ _, ?_⟩
        intro a ha b hb
        rw [List.mem_singleton] at hb
        rw [hb]
        have h1 : a.id < db.nextId := hbound a ha
        have h2 : dbB.nextId ≤ variant.id := hle1
        omega
      · rw [hvarsE]
        intro w hw2
        rcases List.mem_append.mp hw2 with hold | hnew
        · have h1 : w.id < db.nextId := hbound w hold
          omega
        · rw [List.mem_singleton] at hnew
          rw [hnew]
          omega
      · intro w hw2
        rw [hvarsE] at hw2
        rcases List.mem_append.mp hw2 with hold | hnew
        · obtain ⟨p, hp, hpj⟩ := hvarProd w hold
          exact ⟨p, by rw [hprodE]; exact List.mem_append_left _ hp, hpj⟩
        · rw [List.mem_singleton] at hnew
          rw [hnew]
          obtain ⟨p, hp, hpj⟩ := hvp
          exact ⟨p, by rw [hEprod, hDprod]; exact hp, hpj⟩
      · intro e he
        obtain ⟨p, hp, hpj⟩ := hcacheC e he
        exact ⟨p, by rw [hEprod, hDprod]; exact hp, hpj⟩
    · refine ⟨[(variant.id, variant.sku)], ?_⟩
      unfold skuIds
      rw [hvarsE, List.map_append]
      rfl
    · exact ⟨mmE, by rw [hEmed, hDmed, hmedC, hBmed]⟩
    · refine ⟨variant.id, ?_, ?_⟩
      · have h0 : (skuIds db).find? (fun e => e.2 = nr.sku) = none :=
          skuIds_find_none nr db (by rw [← hBvar]; exact hv)
        have h1 : skuIds dbE = skuIds db ++ [(variant.id, variant.sku)] := by
          unfold skuIds
          rw [hvarsE, List.map_append]
          rfl
        rw [h1, find_append_none _ _ _ h0, hsku2]
        simp
      · intro u hu
        obtain ⟨m, hm, h1, h2, h3⟩ := mediaStep_cover nr variant dbD u hu
        rw [hE] at hm
        exact ⟨m, hm, h1, h2, h3⟩
  · -- UPDATE path
    obtain ⟨dbC, cacheC, variant, hC, hvid, hskuIdsC, hnC, hlenC, hppres,
        hvpres, hcpres, hinvC, hmedC, hcatC, hsubC⟩ :=
      upsertBranch_update_full nr pb
        (if VALID_CURRENCIES.contains (pyUpper nr.currency) then
          pyUpper nr.currency else "USD") cat subcat cache dbB v hv
        (by
          rw [hBprod]
          exact hvarProd v (by rw [← hBvar]; exact List.mem_of_find?_eq_some hv))
        (by rw [hBvar]; exact hid)
    rw [hC]
    dsimp only
    obtain ⟨⟨dbD, act⟩, hD, hDvar, hDprod, hDmed, hDcat, hDsub, hDnext⟩ :=
      inventoryStep_ok nr variant.id dbC hq hs
    rw [hD]
    dsimp only
    dsimp only at hDvar hDprod hDmed hDcat hDsub hDnext
    rcases hE : mediaStep nr variant dbD with ⟨dbE, mc⟩
    dsimp only
    have hfrE := mediaStep_frame nr variant dbD
    rw [hE] at hfrE
    dsimp only at hfrE
    obtain ⟨hEvar, hEprod, hEinv, hElink, hEcat, hEsub, mmE, hEmed⟩ := hfrE
    have hEnext : dbD.nextId ≤ dbE.nextId := by
      have h0 := mediaStep_nextId nr variant dbD
      rw [hE] at h0
      exact h0
    have hskuIdsE : skuIds dbE = skuIds db := by
      have h1 : skuIds dbE = skuIds dbC := by
        unfold skuIds
        rw [hEvar, hDvar]
      have h2 : skuIds dbB = skuIds db := by
        unfold skuIds
        rw [hBvar]
      rw [h1, hskuIdsC, h2]
    have hprodE : dbE.products = dbC.products := hEprod.trans hDprod
    have hnextE : db.nextId ≤ dbE.nextId := by omega
    refine ⟨dbE, cacheC, _, rfl, ?_, ?_, ?_, hnextE, ?_⟩
    · refine ⟨?_, ?_, ?_, ?_, ?_, ?_, ?_⟩
      · rw [hEcat, hDcat, hcatC, hBcat]
        exact hcatA
      · rw [hEsub, hDsub, hsubC]
        exact hsubB
      · exact pairwise_sku_of_skuIds dbE db hskuIdsE hsku
      · exact pairwise_id_of_skuIds dbE db hskuIdsE hid
      · refine ids_bound_of_skuIds dbE db dbE.nextId hskuIdsE ?_
        intro w hw2
        have h1 : w.id < db.nextId := hbound w hw2
        omega
      · intro w hw2
        have hw3 : w ∈ dbC.variants := by
          rw [← hDvar, ← hEvar]
          exact hw2
        obtain ⟨w0, hw0, hweq⟩ := hvpres w hw3
        rw [hBvar] at hw0
        obtain ⟨p, hp, hpj⟩ := hvarProd w0 hw0
        obtain ⟨p2, hp2, hpj2⟩ := hppres w0.productId ⟨p, by rw [hBprod]; exact hp, hpj⟩
        exact ⟨p2, by rw [hprodE]; exact hp2, by rw [hpj2, hweq]⟩
      · intro e he
        rcases hcpres e he with hold | hnew
        · obtain ⟨p, hp, hpj⟩ := hcacheProd e hold
          obtain ⟨p2, hp2, hpj2⟩ := hppres e.2 ⟨p, by rw [hBprod]; exact hp, hpj⟩
          exact ⟨p2, by rw [hprodE]; exact hp2, hpj2⟩
        · have hvmem : v ∈ db.variants := by
            rw [← hBvar]
            exact List.mem_of_find?_eq_some hv
          obtain ⟨p, hp, hpj⟩ := hvarProd v hvmem
          obtain ⟨p2, hp2, hpj2⟩ := hppres v.productId ⟨p, by rw [hBprod]; exact hp, hpj⟩
          exact ⟨p2, by rw [hprodE]; exact hp2, by rw [hpj2, hnew]⟩
    · exact ⟨[], by rw [List.append_nil]; exact hskuIdsE⟩
    · refine ⟨mmE, ?_⟩
      rw [hEmed, hDmed, hmedC, hBmed]
    · refine ⟨v.id, ?_, ?_⟩
      · rw [hskuIdsE]
        exact skuIds_find_of_find nr db v (by rw [← hBvar]; exact hv)
      · intro u hu
        obtain ⟨m, hm, h1, h2, h3⟩ := mediaStep_cover nr variant dbD u hu
        rw [hE] at hm
        rw [hvid] at h1
        exact ⟨m, hm, h1, h2, h3⟩

/-- Re-committing an already-covered row over a well-formed store takes
the update path end to end: no product or variant creation is reported,
the variant skeleton, the media store and the product count are untouched,
well-formedness is preserved and every covered row stays covered. -/
theorem upsertOne_step_update (nr : NRow) (cache : PCache) (db : DB)
    (hWF : ImportWF db cache)
    (hvalid : validateRow nr = [])
    (hstr : ∀ u ∈ nr.media_urls.filter truthyScalar, ∃ s, u = JScalar.str s)
    (hcov : rowCovered nr db) :
    ∃ db2 cache2 out, upsertOne nr cache db = .ok (db2, cache2, out) ∧
      out.product_created = false ∧ out.variant_created = false ∧
      skuIds db2 = skuIds db ∧ db2.media = db.media ∧
      db2.products.length = db.products.length ∧
      ImportWF db2 cache2 := by
  obtain ⟨hcat, hsub, hsku, hid, hbound, hvarProd, hcacheProd⟩ := hWF
  obtain ⟨hpr, hq, hs⟩ := valid_parts nr hvalid
  obtain ⟨pb, hpb⟩ := Option.isSome_iff_exists.mp hpr
  obtain ⟨i, hfind, hurls⟩ := hcov
  obtain ⟨v, hv0, hvi⟩ := rowCovered_find nr db i hfind
  unfold upsertOne
  rw [hpb]
  dsimp only
  obtain ⟨⟨cat, dbA⟩, hA, hcatA, hnA⟩ :=
    getOrCreateCategory_ok db nr.category_name hcat
  have hfrA := getOrCreateCategory_frame db nr.category_name _ hA
  rw [hA]
  dsimp only
  obtain ⟨⟨subcat, dbB⟩, hB, hsubB, hnB⟩ :=
    getOrCreateSubcategory_ok dbA cat nr.subcategory_name
      (by rw [hfrA.2.2.2.2.2]; exact hsub)
  have hfrB := getOrCreateSubcategory_frame dbA cat nr.subcategory_name _ hB
  rw [hB]
  dsimp only
  have hBvar : dbB.variants = db.variants := hfrB.1.trans hfrA.1
  have hBprod : dbB.products = db.products := hfrB.2.1.trans hfrA.2.1
  have hBmed : dbB.media = db.media := hfrB.2.2.2.1.trans hfrA.2.2.2.1
  have hBcat : dbB.categories = dbA.categories := hfrB.2.2.2.2.2
  have hBnext : db.nextId ≤ dbB.nextId := hnA.trans hnB
  have hv : dbB.variants.find? (fun w => w.sku = nr.sku) = some v := by
    rw [hBvar]
    exact hv0
  obtain ⟨dbC, cacheC, variant, hC, hvid, hskuIdsC, hnC, hlenC, hppres,
      hvpres, hcpres, hinvC, hmedC, hcatC, hsubC⟩ :=
    upsertBranch_update_full nr pb
      (if VALID_CURRENCIES.contains (pyUpper nr.currency) then
        pyUpper nr.currency else "USD") cat subcat cache dbB v hv
      (by
        rw [hBprod]
        exact hvarProd v (by rw [← hBvar]; exact List.mem_of_find?_eq_some hv))
      (by rw [hBvar]; exact hid)
  rw [hC]
  dsimp only
  obtain ⟨⟨dbD, act⟩, hD, hDvar, hDprod, hDmed, hDcat, hDsub, hDnext⟩ :=
    inventoryStep_ok nr variant.id dbC hq hs
  rw [hD]
  dsimp only
  dsimp only at hDvar hDprod hDmed hDcat hDsub hDnext
  have hDmedb : dbD.media = db.media := by rw [hDmed, hmedC, hBmed]
  have hskip : mediaStep nr variant dbD = (dbD, 0) := by
    apply mediaStep_skip
    intro u hu
    obtain ⟨s, hus⟩ := hstr u hu
    obtain ⟨m, hm, h1, h2, h3⟩ := hurls u hu
    refine ⟨s, hus, m, by rw [hDmedb]; exact hm, ?_, h2, ?_⟩
    · rw [h1, hvid, hvi]
    · rw [h3, hus]
      rfl
  rw [hskip]
  dsimp only
  have hskuIdsD : skuIds dbD = skuIds db := by
    have h1 : skuIds dbD = skuIds dbC := by
      unfold skuIds
      rw [hDvar]
    have h2 : skuIds dbB = skuIds db := by
      unfold skuIds
      rw [hBvar]
    rw [h1, hskuIdsC, h2]
  have hprodD : dbD.products = dbC.products := hDprod
  refine ⟨dbD, cacheC, _, rfl, rfl, rfl, hskuIdsD, hDmedb, ?_, ?_⟩
  · rw [hDprod, hlenC, hBprod]
  · refine ⟨?_, ?_, ?_, ?_, ?_, ?_, ?_⟩
    · rw [hDcat, hcatC, hBcat]
      exact hcatA
    · rw [hDsub, hsubC]
      exact hsubB
    · exact pairwise_sku_of_skuIds dbD db hskuIdsD hsku
    · exact pairwise_id_of_skuIds dbD db hskuIdsD hid
    · refine ids_bound_of_skuIds dbD db dbD.nextId hskuIdsD ?_
      intro w hw2
      have h1 : w.id < db.nextId := hbound w hw2
      omega
    · intro w hw2
      have hw3 : w ∈ dbC.variants := by
        rw [← hDvar]
        exact hw2
      obtain ⟨w0, hw0, hweq⟩ := hvpres w hw3
      rw [hBvar] at hw0
      obtain ⟨p, hp, hpj⟩ := hvarProd w0 hw0
      obtain ⟨p2, hp2, hpj2⟩ := hppres w0.productId
        ⟨p, by rw [hBprod]; exact hp, hpj⟩
      exact ⟨p2, by rw [hprodD]; exact hp2, by rw [hpj2, hweq]⟩
    · intro e he
      rcases hcpres e he with hold | hnew
      · obtain ⟨p, hp, hpj⟩ := hcacheProd e hold
        obtain ⟨p2, hp2, hpj2⟩ := hppres e.2
          ⟨p, by rw [hBprod]; exact hp, hpj⟩
        exact ⟨p2, by rw [hprodD]; exact hp2, hpj2⟩
      · have hvmem : v ∈ db.variants := List.mem_of_find?_eq_some hv0
        obtain ⟨p, hp, hpj⟩ := hvarProd v hvmem
        obtain ⟨p2, hp2, hpj2⟩ := hppres v.productId
          ⟨p, by rw [hBprod]; exact hp, hpj⟩
        exact ⟨p2, by rw [hprodD]; exact hp2, by rw [hpj2, hnew]⟩

/-- Row coverage survives appending to the skeleton and the media store. -/
theorem rowCovered_mono (nr : NRow) (dbX dbY : DB)
    (h1 : ∃ tail, skuIds dbY = skuIds dbX ++ tail)
    (h2 : ∃ mm, dbY.media = dbX.media ++ mm)
    (hc : rowCovered nr dbX) : rowCovered nr dbY := by
  obtain ⟨tail, ht⟩ := h1
  obtain ⟨mm, hmm⟩ := h2
  obtain ⟨i, hf, hu⟩ := hc
  refine ⟨i, ?_, ?_⟩
  · rw [ht]
    exact find_append_some _ _ _ _ hf
  · intro u hu2
    obtain ⟨m, hm, ha, hb, hc2⟩ := hu u hu2
    exact ⟨m, by rw [hmm]; exact List.mem_append_left _ hm, ha, hb, hc2⟩

/-- The first commit run over valid rows: well-formedness is maintained,
variants and media only accumulate, every processed row ends covered and
previously covered rows stay covered. -/
theorem commitLoop_run1 :
    ∀ (prows : List PRow) (idx : Nat) (cache : PCache) (db : DB)
      (res : CommitResults) (outP : DB × CommitResults),
    commitLoop false prows idx cache db res = outP →
    ImportWF db cache →
    (∀ r ∈ prows, r.action ≠ "error" ∧ r.action ≠ "skip" ∧
      validateRow r.row = [] ∧
      (jPresent r.row.weight = true →
        (pyDecimal r.row.weight).isSome = true)) →
    (∃ cache2, ImportWF outP.1 cache2) ∧
    (∃ tail, skuIds outP.1 = skuIds db ++ tail) ∧
    (∃ mm, outP.1.media = db.media ++ mm) ∧
    (∀ r ∈ prows, rowCovered r.row outP.1) ∧
    (∀ nr0, rowCovered nr0 db → rowCovered nr0 outP.1) := by
  intro prows
  induction prows with
  | nil =>
      intro idx cache db res outP hout hWF hall
      simp only [commitLoop] at hout
      cases hout
      exact ⟨⟨cache, hWF⟩, ⟨[], by simp⟩, ⟨[], by simp⟩,
        fun r hr => absurd hr (by simp), fun _ h => h⟩
  | cons r rest ih =>
      intro idx cache db res outP hout hWF hall
      have hr := hall r (List.mem_cons_self _ _)
      simp only [commitLoop] at hout
      rw [if_neg (not_or.mpr ⟨hr.1, hr.2.1⟩)] at hout
      rw [if_neg Bool.false_ne_true] at hout
      obtain ⟨db2, cache2, out, hstep, hWF2, htail1, hmm1, hnx, hcov1⟩ :=
        upsertOne_step r.row cache db hWF hr.2.2.1 hr.2.2.2
      rw [hstep] at hout
      dsimp only at hout
      obtain ⟨⟨cache3, hWF3⟩, ⟨t2, ht2⟩, ⟨m2, hm2⟩, hcovrest, hcovpres⟩ :=
        ih (idx + 1) cache2 db2 _ outP hout hWF2
          (fun r2 hr2 => hall r2 (List.mem_cons_of_mem _ hr2))
      refine ⟨⟨cache3, hWF3⟩, ?_, ?_, ?_, ?_⟩
      · obtain ⟨t1, ht1⟩ := htail1
        exact ⟨t1 ++ t2, by rw [ht2, ht1, List.append_assoc]⟩
      · obtain ⟨m1, hm1⟩ := hmm1
        exact ⟨m1 ++ m2, by rw [hm2, hm1, List.append_assoc]⟩
      · intro r2 hr2
        rcases List.mem_cons.mp hr2 with heq | hmem
        · rw [heq]
          exact hcovpres r.row hcov1
        · exact hcovrest r2 hmem
      · intro nr0 h0
        exact hcovpres nr0 (rowCovered_mono nr0 db db2 htail1 hmm1 h0)

/-- The second commit run over valid, string-url, covered rows: nothing is
created — the media store, the variant skeleton and the product count are
unchanged and the created counters never move. -/
theorem commitLoop_run2 :
    ∀ (prows : List PRow) (idx : Nat) (cache : PCache) (db : DB)
      (res : CommitResults) (outP : DB × CommitResults),
    commitLoop false prows idx cache db res = outP →
    ImportWF db cache →
    (∀ r ∈ prows, r.action ≠ "error" ∧ r.action ≠ "skip" ∧
      validateRow r.row = [] ∧
      (∀ u ∈ r.row.media_urls.filter truthyScalar, ∃ s, u = JScalar.str s) ∧
      rowCovered r.row db) →
    outP.1.media = db.media ∧
    skuIds outP.1 = skuIds db ∧
    outP.1.products.length = db.products.length ∧
    (∃ cache2, ImportWF outP.1 cache2) ∧
    outP.2.products_created = res.products_created ∧
    outP.2.variants_created = res.variants_created := by
  intro prows
  induction prows with
  | nil =>
      intro idx cache db res outP hout hWF hall
      simp only [commitLoop] at hout
      cases hout
      exact ⟨rfl, rfl, rfl, ⟨cache, hWF⟩, rfl, rfl⟩
  | cons r rest ih =>
      intro idx cache db res outP hout hWF hall
      have hr := hall r (List.mem_cons_self _ _)
      simp only [commitLoop] at hout
      rw [if_neg (not_or.mpr ⟨hr.1, hr.2.1⟩)] at hout
      rw [if_neg Bool.false_ne_true] at hout
      obtain ⟨db2, cache2, out, hstep, hpcf, hvcf, hsk2, hmd2, hpl2, hWF2⟩ :=
        upsertOne_step_update r.row cache db hWF hr.2.2.1 hr.2.2.2.1
          hr.2.2.2.2
      rw [hstep] at hout
      dsimp only at hout
      rw [hpcf, hvcf] at hout
      simp only [Bool.false_eq_true, if_false] at hout
      obtain ⟨hmed2, hsku2, hlen2, hWFex, hpc2, hvc2⟩ :=
        ih (idx + 1) cache2 db2 _ outP hout hWF2
          (fun r2 hr2 => by
            obtain ⟨h1, h2, h3, h4, h5⟩ := hall r2 (List.mem_cons_of_mem _ hr2)
            exact ⟨h1, h2, h3, h4, rowCovered_mono r2.row db db2
              ⟨[], by rw [List.append_nil]; exact hsk2⟩
              ⟨[], by rw [List.append_nil]; exact hmd2⟩ h5⟩)
      refine ⟨hmed2.trans hmd2, hsku2.trans hsk2, hlen2.trans hpl2, hWFex,
        ?_, ?_⟩
      · refine hpc2.trans ?_
        split
        · rfl
        · split
          · rfl
          · rfl
      · refine hvc2.trans ?_
        split
        · rfl
        · split
          · rfl
          · rfl

/-- C5: committing the same payload twice with upsert enabled is
idempotent in the stated sense, for payloads of at most one commit page
(500 rows) whose rows validate, whose taxonomy-name cells are strings
(the source strips them without str(), crashing on anything else), whose
weight cells (when present) parse, and whose truthy media cells are
strings: the second run reports zero
products_created and zero variants_created, adds no product row, leaves
the media store byte-for-byte identical (already-attached URLs are never
re-added) and the variant (id, sku) skeleton unchanged, both stores hold
exactly one variant per payload SKU, and a media row freshly created and
auto-marked main can only arise when the variant had no media at all
beforehand. -/
theorem c5_commit_idempotent (rows : List RawRow)
    (res1 res2 : DB × CommitResults)
    (hlen : rows.length ≤ 500)
    (hvalid : ∀ raw ∈ rows, validateRow (normalizeRow raw) = [])
    (htax : ∀ raw ∈ rows, taxonomyCellsStr raw = true)
    (hweight : ∀ raw ∈ rows, jPresent (normalizeRow raw).weight = true →
      (pyDecimal (normalizeRow raw).weight).isSome = true)
    (hstr : ∀ raw ∈ rows, ∀ u ∈ (normalizeRow raw).media_urls.filter
      truthyScalar, ∃ s, u = JScalar.str s)
    (h1 : commitImportPayload rows true false [] DB.empty = res1)
    (h2 : commitImportPayload rows true false [] res1.1 = res2) :
    res2.2.products_created = 0 ∧
    res2.2.variants_created = 0 ∧
    res2.1.products.length = res1.1.products.length ∧
    res2.1.media = res1.1.media ∧
    skuIds res2.1 = skuIds res1.1 ∧
    (∀ raw ∈ rows,
      (res1.1.variants.filter
        (fun v => v.sku = (normalizeRow raw).sku)).length = 1) ∧
    (∀ raw ∈ rows,
      (res2.1.variants.filter
        (fun v => v.sku = (normalizeRow raw).sku)).length = 1) ∧
    (∀ nr variant db m, m ∈ (mediaStep nr variant db).1.media →
      m ∉ db.media → m.is_main = true →
      ∀ m0 ∈ db.media, m0.variantId ≠ some variant.id) := by
  unfold commitImportPayload at h1 h2
  dsimp only at h1 h2
  rw [preview_rows_all DB.empty rows true hlen] at h1
  rw [preview_rows_all res1.1 rows true hlen] at h2
  have hWF0 : ImportWF DB.empty [] := by
    refine ⟨List.Pairwise.nil, List.Pairwise.nil, List.Pairwise.nil,
      List.Pairwise.nil, ?_, ?_, ?_⟩
    · intro v hv
      simp [DB.empty] at hv
    · intro v hv
      simp [DB.empty] at hv
    · intro e he
      simp at he
  have hall1 : ∀ r ∈ previewRowsFull DB.empty rows true [],
      r.action ≠ "error" ∧ r.action ≠ "skip" ∧ validateRow r.row = [] ∧
      (jPresent r.row.weight = true →
        (pyDecimal r.row.weight).isSome = true) := by
    intro r hmem
    obtain ⟨⟨raw, hraw, hrow⟩, haction, hval⟩ :=
      previewRowsFull_facts DB.empty rows true hvalid r hmem
    have hk := classify_upsert_kinds DB.empty r.row
    refine ⟨by rw [haction]; exact hk.1, by rw [haction]; exact hk.2,
      hval, ?_⟩
    rw [hrow]
    exact hweight raw hraw
  obtain ⟨⟨cache1, hWF1⟩, htail1, hmm1, hcovall, _⟩ :=
    commitLoop_run1 _ 0 [] DB.empty CommitResults.empty res1 h1 hWF0 hall1
  simp only [previewRowsFull] at hcovall
  have hcovraw : ∀ raw ∈ rows, rowCovered (normalizeRow raw) res1.1 := by
    intro raw hraw
    exact hcovall _ (List.mem_map_of_mem _ hraw)
  have hall2 : ∀ r ∈ previewRowsFull res1.1 rows true [],
      r.action ≠ "error" ∧ r.action ≠ "skip" ∧ validateRow r.row = [] ∧
      (∀ u ∈ r.row.media_urls.filter truthyScalar, ∃ s, u = JScalar.str s) ∧
      rowCovered r.row res1.1 := by
    intro r hmem
    obtain ⟨⟨raw, hraw, hrow⟩, haction, hval⟩ :=
      previewRowsFull_facts res1.1 rows true hvalid r hmem
    have hk := classify_upsert_kinds res1.1 r.row
    refine ⟨by rw [haction]; exact hk.1, by rw [haction]; exact hk.2,
      hval, by rw [hrow]; exact hstr raw hraw, ?_⟩
    rw [hrow]
    exact hcovraw raw hraw
  have hWF1e : ImportWF res1.1 [] :=
    ⟨hWF1.1, hWF1.2.1, hWF1.2.2.1, hWF1.2.2.2.1, hWF1.2.2.2.2.1,
      hWF1.2.2.2.2.2.1, by intro e he; simp at he⟩
  obtain ⟨hmed, hsku, hplen, ⟨cache2, hWF2⟩, hpc, hvc⟩ :=
    commitLoop_run2 _ 0 [] res1.1 CommitResults.empty res2 h2 hWF1e hall2
  refine ⟨hpc.trans rfl, hvc.trans rfl, hplen, hmed, hsku, ?_, ?_, ?_⟩
  · intro raw hraw
    obtain ⟨i, hf, _⟩ := hcovraw raw hraw
    obtain ⟨v, hfv, hvi⟩ := rowCovered_find _ _ _ hf
    exact filter_length_eq_one _ (fun a b => a.sku ≠ b.sku)
      (fun a b hpa hpb hR => hR ((of_decide_eq_true hpa).trans
        (of_decide_eq_true hpb).symm))
      res1.1.variants hWF1.2.2.1 v (List.mem_of_find?_eq_some hfv)
      (by simpa using List.find?_some hfv)
  · intro raw hraw
    have hcov2 : rowCovered (normalizeRow raw) res2.1 :=
      rowCovered_mono _ res1.1 res2.1
        ⟨[], by rw [List.append_nil]; exact hsku⟩
        ⟨[], by rw [List.append_nil]; exact hmed⟩ (hcovraw raw hraw)
    obtain ⟨i, hf, _⟩ := hcov2
    obtain ⟨v, hfv, hvi⟩ := rowCovered_find _ _ _ hf
    exact filter_length_eq_one _ (fun a b => a.sku ≠ b.sku)
      (fun a b hpa hpb hR => hR ((of_decide_eq_true hpa).trans
        (of_decide_eq_true hpb).symm))
      res2.1.variants hWF2.2.2.1 v (List.mem_of_find?_eq_some hfv)
      (by simpa using List.find?_some hfv)
  · exact fun nr variant db m hm hnew hmain =>
      mediaStep_main nr variant db m hm hnew hmain

/-- C5 counterexample to the unconditional claim: a truthy non-string
media cell (the JSON number 5) is stored as the URL string 5, but the
already-attached check compares the raw cell against stored strings, so
re-committing the identical payload re-adds the URL: after run one the
variant carries exactly the URL 5, after run two it carries it twice. -/
theorem c5_nonstring_url_readded :
    (commitImportPayload c5BadRows true false [] DB.empty).1.media.map
        (fun m => m.url) = ["5"] ∧
    ((commitImportPayload c5BadRows true false []
        (commitImportPayload c5BadRows true false [] DB.empty).1).1.media.map
        (fun m => m.url)) = ["5", "5"] := by
  decide

/-- C5 witness: committing the single-row payload c5Rows twice from the
empty store computes c5Run1 then c5Run2, and the claim theorem applies to
them at its concrete inputs. -/
theorem c5_commit_idempotent_witness :
    c5Run2.2.products_created = 0 ∧
    c5Run2.2.variants_created = 0 ∧
    c5Run2.1.products.length = c5Run1.1.products.length ∧
    c5Run2.1.media = c5Run1.1.media ∧
    skuIds c5Run2.1 = skuIds c5Run1.1 ∧
    (∀ raw ∈ c5Rows,
      (c5Run1.1.variants.filter
        (fun v => v.sku = (normalizeRow raw).sku)).length = 1) ∧
    (∀ raw ∈ c5Rows,
      (c5Run2.1.variants.filter
        (fun v => v.sku = (normalizeRow raw).sku)).length = 1) ∧
    (∀ nr variant db m, m ∈ (mediaStep nr variant db).1.media →
      m ∉ db.media → m.is_main = true →
      ∀ m0 ∈ db.media, m0.variantId ≠ some variant.id) := by
  refine c5_commit_idempotent c5Rows c5Run1 c5Run2 (by decide) (by decide)
    (by decide) ?_ ?_ (by decide) (by decide)
  · intro raw hraw
    rw [show c5Rows = [c5Row] from rfl, List.mem_singleton] at hraw
    subst hraw
    intro h
    exact absurd h (by decide)
  · intro raw hraw
    rw [show c5Rows = [c5Row] from rfl, List.mem_singleton] at hraw
    subst hraw
    intro u hu
    have hl : (normalizeRow c5Row).media_urls.filter truthyScalar
        = [JScalar.str "u1"] := by decide
    rw [hl, List.mem_singleton] at hu
    exact ⟨"u1", hu⟩

end Sheaker
